import Mathlib

/-!
Verification of the CourseGPT repository (generation pipeline `main.py`,
query/creation service `api/main.py`, viewer UI `streamlit_app.py`).

Python strings are modelled as `List Char` (`Str`); Python dicts as
association lists with insert-or-update semantics; the stateful
`ProgressTracker` as a structure with explicit state-passing; fallible
code returns `Except`.  Wall-clock timestamps and the LLM HTTP service are
external inputs and appear as explicit parameters.
-/

namespace CourseGPT

/-- Python `str` modelled as a list of characters (code points). -/
abbrev Str := List Char

/-- Convert a Lean string literal into the `Str` model. -/
def litS (s : String) : Str := s.data

/-- Boolean "is `p` a prefix of `s`" on character lists. -/
def strPref : Str → Str → Bool
  | [], _ => true
  | _ :: _, [] => false
  | a :: as_, b :: bs => a == b && strPref as_ bs

/-- Index of the first occurrence of `pat` as a substring (leftmost match of
a `re.search`-style scan), or `none`. -/
def findSubIdx (pat : Str) : Str → Option Nat
  | [] => if pat.isEmpty then some 0 else none
  | s@(_ :: rest) =>
    if strPref pat s then some 0 else (findSubIdx pat rest).map (· + 1)

/-- Python `list.sort` insert step: stable, `le`-respecting insertion. -/
def oInsert (le : α → α → Bool) (a : α) : List α → List α
  | [] => [a]
  | b :: l => if le a b then a :: b :: l else b :: oInsert le a l

/-- Python `list.sort(key=...)` modelled as a stable insertion sort: with a
total transitive `le`, the result is the unique stable `le`-ordering. -/
def iSort (le : α → α → Bool) : List α → List α
  | [] => []
  | a :: l => oInsert le a (iSort le l)

theorem oInsert_perm (le : α → α → Bool) (a : α) (l : List α) :
    List.Perm (oInsert le a l) (a :: l) := by
  induction l with
  | nil => simp [oInsert]
  | cons b t ih =>
    simp only [oInsert]
    by_cases h : le a b = true
    · simp [h]
    · simp only [h]
      exact List.Perm.trans (List.Perm.cons b ih) (List.Perm.swap a b t)

theorem iSort_perm (le : α → α → Bool) (l : List α) :
    List.Perm (iSort le l) l := by
  induction l with
  | nil => simp [iSort]
  | cons a t ih =>
    exact List.Perm.trans (oInsert_perm le a (iSort le t)) (List.Perm.cons a ih)

theorem oInsert_pairwise (le : α → α → Bool)
    (htot : ∀ a b, le a b = true ∨ le b a = true)
    (htrans : ∀ a b c, le a b = true → le b c = true → le a c = true)
    (a : α) (l : List α) (hl : l.Pairwise (fun x y => le x y = true)) :
    (oInsert le a l).Pairwise (fun x y => le x y = true) := by
  induction l with
  | nil => simp [oInsert]
  | cons b t ih =>
    rcases hl with _ | ⟨hb, ht⟩
    simp only [oInsert]
    by_cases h : le a b = true
    · rw [if_pos h]
      refine List.Pairwise.cons ?_ (List.Pairwise.cons hb ht)
      intro x hx
      rcases List.mem_cons.mp hx with hx1 | hx2
      · subst hx1; exact h
      · exact htrans a b x h (hb x hx2)
    · have hba : le b a = true := by
        rcases htot a b with h1 | h1
        · exact absurd h1 h
        · exact h1
      rw [if_neg h]
      refine List.Pairwise.cons ?_ (ih ht)
      intro x hx
      have hmem := (oInsert_perm le a t).mem_iff.mp hx
      rcases List.mem_cons.mp hmem with hx1 | hx2
      · subst hx1; exact hba
      · exact hb x hx2

theorem iSort_pairwise (le : α → α → Bool)
    (htot : ∀ a b, le a b = true ∨ le b a = true)
    (htrans : ∀ a b c, le a b = true → le b c = true → le a c = true)
    (l : List α) :
    (iSort le l).Pairwise (fun x y => le x y = true) := by
  induction l with
  | nil => simp [iSort]
  | cons a t ih => exact oInsert_pairwise le htot htrans a (iSort le t) ih

/-! ## Filename sanitization (`main.py` `FileUtils.sanitize_filename`,
`api/main.py` `create_course`) -/

/-- Python `re` word character `\w` (Unicode semantics), modelled exactly
for code points up to U+00FF: ASCII alphanumerics and underscore, plus the
Latin-1 letters and numeric characters (ª ² ³ µ ¹ º ¼ ½ ¾ and the letter
ranges À–Ö, Ø–ö, ø–ÿ, excluding × and ÷).  Code points above U+00FF are
treated as non-word characters, a conservative restriction of Python's
full Unicode `\w`; every concrete input decided in this file is Latin-1. -/
def isWordChar (c : Char) : Bool :=
  c.isAlphanum || c == '_' ||
  (let n := c.toNat
   n == 0xAA || n == 0xB2 || n == 0xB3 || n == 0xB5 || n == 0xB9 ||
   n == 0xBA || n == 0xBC || n == 0xBD || n == 0xBE ||
   (0xC0 ≤ n && n ≤ 0xFF && n != 0xD7 && n != 0xF7))

/-- The character class `[\w\-\.]` kept by the sanitizer's substitution. -/
def keepChar (c : Char) : Bool :=
  isWordChar c || c == '-' || c == '.'

/-- `re.sub(r'[^\w\-\.]', '_', text)`: replace every character that is not
a word character, `-` or `.` with `_`. -/
def pyReplaceNonWord (s : Str) : Str :=
  s.map (fun c => if keepChar c then c else '_')

/-- Left-to-right scan realizing `re.sub(r'__+', '_', s)`: the flag records
whether we are inside an underscore run whose single replacement `_` has
already been emitted.  Every maximal run of two or more underscores is
replaced by one underscore; runs of one are untouched (emitting one `_`
per maximal run produces exactly that string). -/
def collapseGo (inRun : Bool) : Str → Str
  | [] => []
  | c :: rest =>
    if c == '_' then
      (if inRun then collapseGo true rest else '_' :: collapseGo true rest)
    else c :: collapseGo false rest

/-- `re.sub(r'__+', '_', s)` (main.py line 411). -/
def collapseUnderscores (s : Str) : Str := collapseGo false s

/-- `FileUtils.sanitize_filename` (main.py lines 405-415): replace
non-word characters, collapse repeated underscores, truncate to 50. -/
def sanitize_filename (text : Str) : Str :=
  (collapseUnderscores (pyReplaceNonWord text)).take 50

/-- The folder-name sanitizer inlined in `create_course`
(api/main.py lines 393-395): replace non-word characters and truncate to
50 — with no collapsing of repeated underscores. -/
def api_safe_folder_name (title : Str) : Str :=
  (pyReplaceNonWord title).take 50

/-- `FileUtils.create_course_folder` (main.py lines 417-423); the
`datetime.now().strftime("%Y%m%d-%H%M%S")` timestamp is an external input
and is passed as a parameter. -/
def create_course_folder (timestamp : Str) (course_title : Str) : Str :=
  sanitize_filename course_title ++ ['-'] ++ timestamp

/-- The folder name built by `create_course` (api/main.py line 396). -/
def api_folder_name (timestamp : Str) (title : Str) : Str :=
  api_safe_folder_name title ++ ['-'] ++ timestamp

/-- No two adjacent underscores (the strings on which `re.sub(r'__+','_')`
is the identity). -/
def NoRun (s : Str) : Prop :=
  List.Chain' (fun a b => ¬(a = '_' ∧ b = '_')) s

/-- Executable check for `NoRun`. -/
def noRunB : Str → Bool
  | [] => true
  | [_] => true
  | a :: b :: t => !(a == '_' && b == '_') && noRunB (b :: t)

theorem noRun_iff : ∀ s : Str, NoRun s ↔ noRunB s = true
  | [] => by simp [NoRun, noRunB]
  | [a] => by simp [NoRun, noRunB]
  | a :: b :: t => by
    rw [NoRun, List.chain'_cons]
    have ih := noRun_iff (b :: t)
    rw [NoRun] at ih
    simp only [noRunB, Bool.and_eq_true, Bool.not_eq_true', Bool.and_eq_false_iff,
      beq_eq_false_iff_ne, ne_eq, ← ih]
    constructor
    · rintro ⟨h1, h2⟩
      refine ⟨?_, h2⟩
      by_cases ha : a = '_'
      · exact Or.inr fun hb => h1 ⟨ha, hb⟩
      · exact Or.inl ha
    · rintro ⟨h1, h2⟩
      refine ⟨?_, h2⟩
      rintro ⟨ha, hb⟩
      rcases h1 with h1 | h1
      · exact h1 ha
      · exact h1 hb

instance (s : Str) : Decidable (NoRun s) :=
  if h : noRunB s = true then isTrue ((noRun_iff s).mpr h)
  else isFalse (fun hn => h ((noRun_iff s).mp hn))

theorem mem_pyReplaceNonWord (s : Str) :
    ∀ c ∈ pyReplaceNonWord s, keepChar c = true := by
  intro c hc
  simp only [pyReplaceNonWord, List.mem_map] at hc
  obtain ⟨a, _, ha⟩ := hc
  by_cases h : keepChar a = true
  · rw [if_pos h] at ha; subst ha; exact h
  · rw [if_neg h] at ha; subst ha; decide

theorem pyReplaceNonWord_fixed {s : Str} (h : ∀ c ∈ s, keepChar c = true) :
    pyReplaceNonWord s = s := by
  induction s with
  | nil => rfl
  | cons a t ih =>
    have ht := ih fun c hc => h c (List.mem_cons_of_mem a hc)
    have ha := h a (List.mem_cons_self a t)
    simp only [pyReplaceNonWord, List.map_cons, if_pos ha] at ht ⊢
    rw [ht]

theorem mem_collapseGo (s : Str) : ∀ b : Bool, ∀ c ∈ collapseGo b s, c ∈ s := by
  induction s with
  | nil => intro b c hc; simp [collapseGo] at hc
  | cons a t ih =>
    intro b c hc
    simp only [collapseGo] at hc
    by_cases ha : (a == '_') = true
    · rw [if_pos ha] at hc
      have ha' : a = '_' := by simpa using ha
      cases b with
      | true =>
        simp only [if_true] at hc
        exact List.mem_cons_of_mem a (ih true c hc)
      | false =>
        simp only [Bool.false_eq_true, if_false] at hc
        rcases List.mem_cons.mp hc with h1 | h2
        · subst h1; rw [ha']; exact List.mem_cons_self _ _
        · exact List.mem_cons_of_mem a (ih true c h2)
    · rw [if_neg ha] at hc
      rcases List.mem_cons.mp hc with h1 | h2
      · subst h1; exact List.mem_cons_self _ _
      · exact List.mem_cons_of_mem a (ih false c h2)

theorem collapseGo_true_head (s : Str) :
    ∀ y ∈ (collapseGo true s).head?, ¬ y = '_' := by
  induction s with
  | nil => intro y hy; simp [collapseGo] at hy
  | cons a t ih =>
    intro y hy
    simp only [collapseGo] at hy
    by_cases ha : (a == '_') = true
    · rw [if_pos ha] at hy
      simp only [if_true] at hy
      exact ih y hy
    · rw [if_neg ha] at hy
      simp only [List.head?_cons, Option.mem_def, Option.some.injEq] at hy
      subst hy
      intro h
      exact ha (by simp [h])

theorem collapseGo_noRun (s : Str) : ∀ b : Bool, NoRun (collapseGo b s) := by
  induction s with
  | nil => intro b; simp [collapseGo, NoRun]
  | cons a t ih =>
    intro b
    simp only [collapseGo]
    by_cases ha : (a == '_') = true
    · rw [if_pos ha]
      cases b with
      | true => rw [if_pos rfl]; exact ih true
      | false =>
        simp only [Bool.false_eq_true, if_false]
        refine List.chain'_cons'.mpr ⟨?_, ih true⟩
        intro y hy h
        exact collapseGo_true_head t y hy h.2
    · rw [if_neg ha]
      refine List.chain'_cons'.mpr ⟨?_, ih false⟩
      intro y _ h
      exact ha (by simp [h.1])

theorem collapseGo_eq_self (s : Str) (h : NoRun s) :
    collapseGo false s = s ∧ (s.head? ≠ some '_' → collapseGo true s = s) := by
  induction s with
  | nil => exact ⟨rfl, fun _ => rfl⟩
  | cons a t ih =>
    obtain ⟨hhead, ht⟩ := List.chain'_cons'.mp h
    obtain ⟨ihf, iht⟩ := ih ht
    by_cases ha : (a == '_') = true
    · have ha' : a = '_' := by simpa using ha
      have hth : t.head? ≠ some '_' := by
        intro hc
        exact hhead '_' (by simp [hc]) ⟨ha', rfl⟩
      constructor
      · simp only [collapseGo, if_pos ha, Bool.false_eq_true, if_false]
        rw [iht hth, ha']
      · intro hc
        exact absurd (by simp [ha'] : (a :: t).head? = some '_') hc
    · have key : collapseGo false t = t := ihf
      constructor
      · simp only [collapseGo, if_neg ha]; rw [key]
      · intro _
        simp only [collapseGo, if_neg ha]; rw [key]

theorem collapseUnderscores_eq_self {s : Str} (h : NoRun s) :
    collapseUnderscores s = s :=
  (collapseGo_eq_self s h).1

theorem sanitize_chars (s : Str) :
    ∀ c ∈ sanitize_filename s, keepChar c = true := by
  intro c hc
  have h1 : c ∈ collapseUnderscores (pyReplaceNonWord s) :=
    List.mem_of_mem_take hc
  exact mem_pyReplaceNonWord s c (mem_collapseGo _ false c h1)

theorem sanitize_noRun (s : Str) : NoRun (sanitize_filename s) :=
  List.Chain'.take (collapseGo_noRun (pyReplaceNonWord s) false) 50

theorem sanitize_len (s : Str) : (sanitize_filename s).length ≤ 50 :=
  List.length_take_le 50 (collapseUnderscores (pyReplaceNonWord s))

theorem sanitize_idem (s : Str) :
    sanitize_filename (sanitize_filename s) = sanitize_filename s := by
  have hfix : pyReplaceNonWord (sanitize_filename s) = sanitize_filename s :=
    pyReplaceNonWord_fixed (sanitize_chars s)
  have hcoll : collapseUnderscores (sanitize_filename s) = sanitize_filename s :=
    collapseUnderscores_eq_self (sanitize_noRun s)
  show (collapseUnderscores (pyReplaceNonWord (sanitize_filename s))).take 50
      = sanitize_filename s
  rw [hfix, hcoll]
  exact List.take_of_length_le (sanitize_len s)

/-- In the ASCII range, Python's `\w` is exactly `[A-Za-z0-9_]`. -/
theorem isWordChar_ascii {c : Char} (hlt : c.toNat < 128)
    (h : isWordChar c = true) : (c.isAlphanum || c == '_') = true := by
  simp only [isWordChar, Bool.or_eq_true, Bool.and_eq_true, beq_iff_eq] at h ⊢
  rcases h with (h | h) | h
  · exact Or.inl h
  · exact Or.inr h
  · exfalso
    simp only [Bool.or_eq_true, Bool.and_eq_true, beq_iff_eq, bne_iff_ne,
      decide_eq_true_eq] at h
    omega

/-- Claim C4, amended.  For every input string the sanitizer's output never
exceeds 50 characters, sanitization is idempotent, and every output
character is a Python word character (`\w`), `-` or `.`.  The stronger
`[A-Za-z0-9_.-]`-only character guarantee of the original claim holds
exactly for ASCII inputs: Python's `\w` is Unicode-aware, so non-ASCII
letters pass through the sanitizer unchanged. -/
theorem claim4_theorem (s : Str) :
    (sanitize_filename s).length ≤ 50 ∧
    sanitize_filename (sanitize_filename s) = sanitize_filename s ∧
    (∀ c ∈ sanitize_filename s, keepChar c = true) ∧
    ((∀ c ∈ s, c.toNat < 128) →
      ∀ c ∈ sanitize_filename s,
        (c.isAlphanum || c == '_' || c == '-' || c == '.') = true) := by
  refine ⟨sanitize_len s, sanitize_idem s, sanitize_chars s, ?_⟩
  intro hascii c hc
  have hkeep := sanitize_chars s c hc
  have hmem : c ∈ pyReplaceNonWord s :=
    mem_collapseGo _ false c (List.mem_of_mem_take hc)
  have hlt : c.toNat < 128 := by
    simp only [pyReplaceNonWord, List.mem_map] at hmem
    obtain ⟨a, hamem, ha⟩ := hmem
    by_cases h : keepChar a = true
    · rw [if_pos h] at ha; subst ha; exact hascii a hamem
    · rw [if_neg h] at ha; subst ha; decide
  simp only [keepChar, Bool.or_eq_true] at hkeep
  rcases hkeep with (hw | hd) | hp
  · have := isWordChar_ascii hlt hw
    simp only [Bool.or_eq_true] at this ⊢
    tauto
  · simp [hd]
  · simp [hp]

/-- Claim C4 as stated is false: the sanitizer's output is not always
confined to `[A-Za-z0-9_.-]`.  Python's `\w` includes non-ASCII letters,
so the single-character title `é` (U+00E9) is kept verbatim. -/
theorem claim4_counterexample :
    ¬ ((sanitize_filename [Char.ofNat 233]).all
        (fun c => c.isAlphanum || c == '_' || c == '-' || c == '.') = true) := by
  decide

theorem claim4_witness :
    (sanitize_filename (litS ("My Course: Intro!!"))).length ≤ 50 ∧
    sanitize_filename (sanitize_filename (litS ("My Course: Intro!!")))
      = sanitize_filename (litS ("My Course: Intro!!")) ∧
    (∀ c ∈ sanitize_filename (litS ("My Course: Intro!!")), keepChar c = true) ∧
    (∀ c ∈ sanitize_filename (litS ("My Course: Intro!!")),
        (c.isAlphanum || c == '_' || c == '-' || c == '.') = true) := by
  have h := claim4_theorem (litS ("My Course: Intro!!"))
  exact ⟨h.1, h.2.1, h.2.2.1, h.2.2.2 (by decide)⟩

/-- Claim C3, amended.  The creation endpoint's inline sanitizer performs
the same character replacement and 50-character truncation and appends the
same `-YYYYMMDD-HHMMSS` suffix, but it does not collapse repeated
underscores; the two folder names therefore agree exactly on titles whose
character-replaced form has no two adjacent underscores, and can differ
otherwise (e.g. on a title containing two consecutive spaces). -/
theorem claim3_theorem (timestamp title : Str)
    (h : NoRun (pyReplaceNonWord title)) :
    api_folder_name timestamp title = create_course_folder timestamp title := by
  unfold api_folder_name create_course_folder api_safe_folder_name
    sanitize_filename
  rw [collapseUnderscores_eq_self h]

/-- Claim C3 as stated is false: on the title `"a  b"` (two spaces) the
endpoint's sanitizer yields `a__b` while the pipeline's yields `a_b`, so
the two folder names differ. -/
theorem claim3_counterexample :
    api_folder_name (litS ("20240101-000000")) (litS ("a  b"))
      ≠ create_course_folder (litS ("20240101-000000")) (litS ("a  b")) := by
  decide

theorem claim3_witness :
    NoRun (pyReplaceNonWord (litS ("My Course"))) ∧
    api_folder_name (litS ("20240101-000000")) (litS ("My Course"))
      = create_course_folder (litS ("20240101-000000")) (litS ("My Course")) :=
  ⟨by decide, claim3_theorem _ _ (by decide)⟩

/-! ## Course enumeration order (`api/main.py` `get_courses`,
`streamlit_app.py` `CourseViewer._scan_courses`) -/

/-- Does `\d{8}-\d{6}` match at the start of `s`? -/
def tsHere (s : Str) : Bool :=
  ((s.take 8).length == 8 && (s.take 8).all Char.isDigit) &&
  (match s.drop 8 with
   | '-' :: r2 => (r2.take 6).length == 6 && (r2.take 6).all Char.isDigit
   | _ => false)

/-- `re.search(r'(\d{8}-\d{6})', name)`: the leftmost position at which
the fixed-width pattern matches, returning the 15-character match. -/
def tsSearch : Str → Option Str
  | [] => none
  | s@(_ :: rest) => if tsHere s then some (s.take 15) else tsSearch rest

/-- Numeric value of a digit string. -/
def digitsToNat (l : Str) : Nat :=
  l.foldl (fun n c => n * 10 + (c.toNat - 48)) 0

def isLeapYear (y : Nat) : Bool :=
  (y % 4 == 0 && y % 100 != 0) || y % 400 == 0

def daysInMonth (y m : Nat) : Nat :=
  if m == 2 then (if isLeapYear y then 29 else 28)
  else if m == 4 || m == 6 || m == 9 || m == 11 then 30
  else 31

/-- Does `datetime.strptime(t, "%Y%m%d-%H%M%S")` succeed on the matched
15-character text?  The `datetime` constructor requires year ≥ 1 (MINYEAR),
a valid month/day pair, hour < 24, minute < 60, second < 60. -/
def validTs (t : Str) : Bool :=
  let y := digitsToNat (t.take 4)
  let mo := digitsToNat ((t.drop 4).take 2)
  let d := digitsToNat ((t.drop 6).take 2)
  let h := digitsToNat ((t.drop 9).take 2)
  let mi := digitsToNat ((t.drop 11).take 2)
  let se := digitsToNat ((t.drop 13).take 2)
  decide (1 ≤ y) && decide (1 ≤ mo) && decide (mo ≤ 12) && decide (1 ≤ d) &&
  decide (d ≤ daysInMonth y mo) && decide (h ≤ 23) && decide (mi ≤ 59) &&
  decide (se ≤ 59)

/-- `timestamp.isoformat()` for the parsed value: `YYYY-MM-DDTHH:MM:SS`
(the fields are re-emitted zero-padded, i.e. exactly the matched digits). -/
def isoOfTs (t : Str) : Str :=
  t.take 4 ++ ['-'] ++ (t.drop 4).take 2 ++ ['-'] ++ (t.drop 6).take 2 ++
  ['T'] ++ (t.drop 9).take 2 ++ [':'] ++ (t.drop 11).take 2 ++ [':'] ++
  (t.drop 13).take 2

/-- `extract_timestamp_from_folder` (api/main.py lines 116-126): regex
search, `strptime` validation, `isoformat` on success, `None` otherwise. -/
def extract_timestamp_from_folder (folder_name : Str) : Option Str :=
  match tsSearch folder_name with
  | some t => if validTs t then some (isoOfTs t) else none
  | none => none

/-- The timestamp computed by `CourseViewer._scan_courses`
(streamlit_app.py lines 246-253): same search and validation, but the
`datetime` object is kept; a `datetime` is modelled by its chronological
code, the 14 matched digits read as the number `YYYYMMDDHHMMSS`. -/
def scanTimestamp (folder_name : Str) : Option Nat :=
  match tsSearch folder_name with
  | some t =>
    if validTs t then some (digitsToNat (t.take 8) * 1000000 + digitsToNat (t.drop 9))
    else none
  | none => none

/-- Python string `<`: lexicographic comparison of code points. -/
def pyStrLt : Str → Str → Bool
  | [], [] => false
  | [], _ :: _ => true
  | _ :: _, [] => false
  | a :: as_, b :: bs =>
    if a.toNat < b.toNat then true
    else if b.toNat < a.toNat then false
    else pyStrLt as_ bs

/-- Python string `<=` (total order: `a <= b ↔ ¬ b < a`). -/
def pyStrLe (a b : Str) : Bool := !(pyStrLt b a)

def boolNat (b : Bool) : Nat := if b then 1 else 0

/-- Python `<=` on the sort-key tuples `(timestamp is None, timestamp or "")`
used by `get_courses` (api/main.py lines 249-252): lexicographic tuple
comparison with `False < True`. -/
def apiKeyLe (x y : Bool × Str) : Bool :=
  if x.1 == y.1 then pyStrLe x.2 y.2 else decide (boolNat x.1 < boolNat y.1)

def apiSortKey (folder : Str) : Bool × Str :=
  match extract_timestamp_from_folder folder with
  | some ts => (false, ts)
  | none => (true, [])

/-- `courses.sort(key=lambda x: (x["timestamp"] is None, x["timestamp"] if
x["timestamp"] else ""), reverse=True)`: stable sort, descending in the
key order.  Each course record is identified by its folder name, from
which the key is derived. -/
def get_courses_order (folders : List Str) : List Str :=
  iSort (fun a b => apiKeyLe (apiSortKey b) (apiSortKey a)) folders

/-- `<=` on the `CourseViewer._scan_courses` sort keys
`(timestamp is None, timestamp if timestamp else datetime.max)`
(streamlit_app.py line 298); `datetime.max` has chronological code
`99991231235959`. -/
def scanKeyLe (x y : Bool × Nat) : Bool :=
  if x.1 == y.1 then decide (x.2 ≤ y.2) else decide (boolNat x.1 < boolNat y.1)

def scanSortKey (folder : Str) : Bool × Nat :=
  match scanTimestamp folder with
  | some n => (false, n)
  | none => (true, 99991231235959)

/-- The stable descending sort performed by `CourseViewer._scan_courses`. -/
def scan_courses_order (folders : List Str) : List Str :=
  iSort (fun a b => scanKeyLe (scanSortKey b) (scanSortKey a)) folders

theorem pyStrLt_asymm : ∀ a b : Str, pyStrLt a b = true → pyStrLt b a = false
  | [], [] => by simp [pyStrLt]
  | [], _ :: _ => by simp [pyStrLt]
  | _ :: _, [] => by simp [pyStrLt]
  | a :: as_, b :: bs => by
    simp only [pyStrLt]
    intro h
    by_cases h1 : a.toNat < b.toNat
    · rw [if_neg (Nat.lt_asymm h1), if_pos h1]
    · rw [if_neg h1] at h
      by_cases h2 : b.toNat < a.toNat
      · rw [if_pos h2] at h; exact absurd h (by simp)
      · rw [if_neg h2] at h
        rw [if_neg h2, if_neg h1]
        exact pyStrLt_asymm as_ bs h

theorem pyStrLt_trans :
    ∀ a b c : Str, pyStrLt a b = true → pyStrLt b c = true → pyStrLt a c = true
  | [], b, [], h1, h2 => by
    cases b with
    | nil => simp [pyStrLt] at h1
    | cons x xs => simp [pyStrLt] at h2
  | [], _, _ :: _, _, _ => by simp [pyStrLt]
  | a :: as_, b, [], h1, h2 => by
    cases b <;> simp [pyStrLt] at h1 h2
  | a :: as_, [], c :: cs, h1, h2 => by simp [pyStrLt] at h1
  | a :: as_, b :: bs, c :: cs, h1, h2 => by
    simp only [pyStrLt] at h1 h2 ⊢
    by_cases hab : a.toNat < b.toNat
    · by_cases hbc : b.toNat < c.toNat
      · rw [if_pos (Nat.lt_trans hab hbc)]
      · rw [if_pos hab] at h1
        rw [if_neg hbc] at h2
        by_cases hcb : c.toNat < b.toNat
        · rw [if_pos hcb] at h2; exact absurd h2 (by simp)
        · rw [if_neg hcb] at h2
          have hbe : b.toNat = c.toNat := Nat.le_antisymm (Nat.le_of_not_lt hcb) (Nat.le_of_not_lt hbc)
          rw [if_pos (hbe ▸ hab)]
    · rw [if_neg hab] at h1
      by_cases hba : b.toNat < a.toNat
      · rw [if_pos hba] at h1; exact absurd h1 (by simp)
      · rw [if_neg hba] at h1
        have hae : a.toNat = b.toNat := Nat.le_antisymm (Nat.le_of_not_lt hba) (Nat.le_of_not_lt hab)
        by_cases hbc : b.toNat < c.toNat
        · rw [if_pos (hae ▸ hbc)]
        · rw [if_neg hbc] at h2
          by_cases hcb : c.toNat < b.toNat
          · rw [if_pos hcb] at h2; exact absurd h2 (by simp)
          · rw [if_neg hcb] at h2
            rw [if_neg (hae ▸ hbc), if_neg (hae ▸ hcb)]
            exact pyStrLt_trans as_ bs cs h1 h2

theorem char_toNat_inj {a b : Char} (h : a.toNat = b.toNat) : a = b := by
  apply Char.eq_of_val_eq
  apply UInt32.eq_of_toBitVec_eq
  exact BitVec.toNat_injective h

theorem pyStrLt_connex :
    ∀ a b : Str, pyStrLt a b = false → pyStrLt b a = true ∨ a = b
  | [], [] => fun _ => Or.inr rfl
  | [], _ :: _ => by simp [pyStrLt]
  | _ :: _, [] => by simp [pyStrLt]
  | a :: as_, b :: bs => by
    simp only [pyStrLt]
    intro h
    by_cases hab : a.toNat < b.toNat
    · rw [if_pos hab] at h; exact absurd h (by simp)
    · rw [if_neg hab] at h
      by_cases hba : b.toNat < a.toNat
      · exact Or.inl (by rw [if_pos hba])
      · rw [if_neg hba] at h
        have hae : a = b :=
          char_toNat_inj (Nat.le_antisymm (Nat.le_of_not_lt hba) (Nat.le_of_not_lt hab))
        rcases pyStrLt_connex as_ bs h with h1 | h1
        · exact Or.inl (by rw [if_neg hba, if_neg hab]; exact h1)
        · exact Or.inr (by rw [hae, h1])

theorem pyStrLe_total (a b : Str) : pyStrLe a b = true ∨ pyStrLe b a = true := by
  by_cases h : pyStrLt b a = true
  · right
    simp only [pyStrLe, Bool.not_eq_true']
    exact pyStrLt_asymm b a h
  · left
    simp only [pyStrLe, Bool.not_eq_true']
    exact Bool.not_eq_true _ ▸ (by simpa using h)

theorem pyStrLe_trans (a b c : Str) (h1 : pyStrLe a b = true)
    (h2 : pyStrLe b c = true) : pyStrLe a c = true := by
  simp only [pyStrLe, Bool.not_eq_true'] at h1 h2 ⊢
  by_contra hca
  have hca' : pyStrLt c a = true := by
    cases hx : pyStrLt c a
    · exact absurd hx hca
    · rfl
  rcases pyStrLt_connex b a h1 with hab | hab
  · have := pyStrLt_trans c a b hca' hab
    rw [this] at h2; exact absurd h2 (by simp)
  · rw [hab] at h2
    rw [hca'] at h2
    exact absurd h2 (by simp)

theorem apiKeyLe_total (x y : Bool × Str) :
    apiKeyLe x y = true ∨ apiKeyLe y x = true := by
  by_cases h : x.1 = y.1
  · simp only [apiKeyLe, h, beq_self_eq_true, if_pos]
    simpa using pyStrLe_total x.2 y.2
  · simp only [apiKeyLe]
    rw [if_neg (by simpa using h), if_neg (by simpa using Ne.symm h)]
    cases hx : x.1 <;> cases hy : y.1 <;> simp_all [boolNat]

theorem apiKeyLe_trans (x y z : Bool × Str) (h1 : apiKeyLe x y = true)
    (h2 : apiKeyLe y z = true) : apiKeyLe x z = true := by
  simp only [apiKeyLe] at h1 h2 ⊢
  by_cases hxy : x.1 = y.1
  · by_cases hyz : y.1 = z.1
    · rw [if_pos (by simpa using hxy)] at h1
      rw [if_pos (by simpa using hyz)] at h2
      rw [if_pos (by simp [hxy, hyz])]
      exact pyStrLe_trans _ _ _ h1 h2
    · rw [if_neg (by simpa using hyz)] at h2
      rw [if_neg (by simpa [hxy] using hyz)]
      rwa [show x.1 = y.1 from hxy]
  · rw [if_neg (by simpa using hxy)] at h1
    by_cases hyz : y.1 = z.1
    · rw [if_neg (by simpa [← hyz] using hxy)]
      rwa [show z.1 = y.1 from hyz.symm]
    · rw [if_neg (by simpa using hyz)] at h2
      simp only [boolNat, decide_eq_true_eq] at h1 h2 ⊢
      cases hx : x.1 <;> cases hy : y.1 <;> cases hz : z.1 <;>
        simp_all

theorem scanKeyLe_total (x y : Bool × Nat) :
    scanKeyLe x y = true ∨ scanKeyLe y x = true := by
  by_cases h : x.1 = y.1
  · simp only [scanKeyLe, h, beq_self_eq_true, if_pos]
    simpa using Nat.le_total x.2 y.2
  · simp only [scanKeyLe]
    rw [if_neg (by simpa using h), if_neg (by simpa using Ne.symm h)]
    cases hx : x.1 <;> cases hy : y.1 <;> simp_all [boolNat]

theorem scanKeyLe_trans (x y z : Bool × Nat) (h1 : scanKeyLe x y = true)
    (h2 : scanKeyLe y z = true) : scanKeyLe x z = true := by
  simp only [scanKeyLe] at h1 h2 ⊢
  by_cases hxy : x.1 = y.1
  · by_cases hyz : y.1 = z.1
    · rw [if_pos (by simpa using hxy)] at h1
      rw [if_pos (by simpa using hyz)] at h2
      rw [if_pos (by simp [hxy, hyz])]
      simp only [decide_eq_true_eq] at h1 h2 ⊢
      exact Nat.le_trans h1 h2
    · rw [if_neg (by simpa using hyz)] at h2
      rw [if_neg (by simpa [hxy] using hyz)]
      rwa [show x.1 = y.1 from hxy]
  · rw [if_neg (by simpa using hxy)] at h1
    by_cases hyz : y.1 = z.1
    · rw [if_neg (by simpa [← hyz] using hxy)]
      rwa [show z.1 = y.1 from hyz.symm]
    · rw [if_neg (by simpa using hyz)] at h2
      simp only [boolNat, decide_eq_true_eq] at h1 h2 ⊢
      cases hx : x.1 <;> cases hy : y.1 <;> cases hz : z.1 <;>
        simp_all

/-- Claim C1, amended.  Both course enumerations sort stably by the key
`(timestamp is None, timestamp)` in *descending* order under
`reverse=True`, which places folders *without* a parseable
`YYYYMMDD-HHMMSS` timestamp **first** (the Boolean `True` sorts above every
timestamp tuple when reversed), followed by the timestamped folders newest
first.  For folders A (20240101-000000), B (no timestamp),
C (20240601-000000) the enumerated order is `B, C, A` in both the API and
the UI scan. -/
theorem claim1_theorem :
    (∀ folders : List Str, List.Perm (get_courses_order folders) folders) ∧
    (∀ folders : List Str,
      (get_courses_order folders).Pairwise
        (fun a b => apiKeyLe (apiSortKey b) (apiSortKey a) = true)) ∧
    get_courses_order
        [litS ("courseA-20240101-000000"), litS ("courseB"),
         litS ("courseC-20240601-000000")]
      = [litS ("courseB"), litS ("courseC-20240601-000000"),
         litS ("courseA-20240101-000000")] ∧
    scan_courses_order
        [litS ("courseA-20240101-000000"), litS ("courseB"),
         litS ("courseC-20240601-000000")]
      = [litS ("courseB"), litS ("courseC-20240601-000000"),
         litS ("courseA-20240101-000000")] := by
  refine ⟨fun folders => iSort_perm _ folders, fun folders => ?_, by decide, by decide⟩
  exact iSort_pairwise _
    (fun a b => apiKeyLe_total (apiSortKey b) (apiSortKey a))
    (fun a b c hab hbc => apiKeyLe_trans _ _ _ hbc hab)
    folders

/-- Claim C1 as stated is false: with folders A (timestamp
`20240101-000000`), B (no parseable timestamp), C (`20240601-000000`), the
enumerated order is not `C, A, B` — the `reverse=True` sort puts the
timestamp-less folder B first, yielding `B, C, A`. -/
theorem claim1_counterexample :
    get_courses_order
        [litS ("courseA-20240101-000000"), litS ("courseB"),
         litS ("courseC-20240601-000000")]
      ≠ [litS ("courseC-20240601-000000"), litS ("courseA-20240101-000000"),
         litS ("courseB")] := by
  decide

/-! ## API client retry loop (`main.py` `PerplexityClient.send_request`) -/

def MAX_RETRIES : Nat := 5

/-- The body of `send_request`'s `while retry_count <= MAX_RETRIES` loop
(main.py lines 266-316).  The HTTP service is an external input given by
`status`, mapping the 0-based attempt index to the HTTP status received.
`remaining` counts loop iterations still permitted, i.e.
`MAX_RETRIES + 1 - retry_count`; the loop exits (and the terminal
`Exception("Failed after 5 retries")` is raised) exactly when
`retry_count > MAX_RETRIES`.  Sleeps and jitter affect no observable state
and are omitted.  The result pairs the outcome with the total number of
attempts performed. -/
def send_request_go (status : Nat → Nat) (attempts : Nat) :
    Nat → Except String Unit × Nat
  | 0 => (Except.error ("Failed after 5 retries"), attempts)
  | remaining + 1 =>
    let st := status attempts
    if st == 200 then (Except.ok (), attempts + 1)
    else if st == 429 then send_request_go status (attempts + 1) remaining
    else if 500 ≤ st then send_request_go status (attempts + 1) remaining
    else
      (Except.error ("API request failed with status " ++ toString st),
       attempts + 1)

/-- `PerplexityClient.send_request`: the retry loop entered with
`retry_count = 0`. -/
def send_request (status : Nat → Nat) : Except String Unit × Nat :=
  send_request_go status 0 (MAX_RETRIES + 1)

/-- Claim C5, confirmed.  When every attempt receives HTTP 500,
`send_request` performs exactly 6 attempts (the first call plus
`MAX_RETRIES = 5` retries) and then raises the terminal
`Failed after 5 retries` failure instead of looping. -/
theorem claim5_theorem (status : Nat → Nat)
    (h : ∀ n, status n = 500) :
    send_request status = (Except.error ("Failed after 5 retries"), 6) := by
  simp [send_request, MAX_RETRIES, send_request_go, h]

theorem claim5_witness :
    send_request (fun _ => 500) = (Except.error ("Failed after 5 retries"), 6) :=
  claim5_theorem (fun _ => 500) (fun _ => rfl)

/-! ## Progress tracker (`main.py` `ProgressTracker`) and pipeline run -/

/-- A key of the `content_status` dict.  `set_descriptions_complete` seeds
*integer* keys `1..N`; the per-subunit setters are called with
`str(subunit_number)`, a *string* key.  In a Python dict `1` and `"1"`
are distinct keys, hence the two constructors. -/
inductive PKey where
  | intKey (n : Nat)
  | strKey (s : String)
deriving DecidableEq

/-- Python `d[k] = v`: update an existing key in place, else append. -/
def dictInsert [DecidableEq κ] : List (κ × ν) → κ → ν → List (κ × ν)
  | [], k, v => [(k, v)]
  | (k0, v0) :: rest, k, v =>
    if k0 = k then (k, v) :: rest else (k0, v0) :: dictInsert rest k v

/-- Python `d.get(k)`. -/
def dictLookup [DecidableEq κ] : List (κ × ν) → κ → Option ν
  | [], _ => none
  | (k0, v0) :: rest, k => if k0 = k then some v0 else dictLookup rest k

/-- A structured log entry (`ProgressTracker.log`); the wall-clock
timestamp and free-form `details` payload carry no claim-relevant data and
are omitted. -/
structure LogEntry where
  level : String
  message : String
  component : String
deriving DecidableEq

/-- Python `a / b` on numbers: raises `ZeroDivisionError` when `b = 0`. -/
def pyDiv (a b : Rat) : Except String Rat :=
  if b = 0 then Except.error ("ZeroDivisionError") else Except.ok (a / b)

/-- The guarded percentage expression
`(completed / total) * 100 if total > 0 else 0` with Python's raising
division (main.py lines 175 and 201). -/
def pctChecked (completed total : Nat) : Except String Rat :=
  if 0 < total then (pyDiv (completed : Rat) (total : Rat)).map (· * 100)
  else Except.ok 0

/-- Value of the guarded percentage expression; `claim8_theorem` shows the
guard makes `pctChecked` total, so the tracker may use this function.
Python floats are modelled as rationals (the claims' values are exact). -/
def pct (completed total : Nat) : Rat :=
  if 0 < total then (completed : Rat) / (total : Rat) * 100 else 0

/-- Render a percentage into the log text (the f-string's fixed-point
decimal formatting is abstracted; the logged *value* is what the claims
are about). -/
def pctText (q : Rat) : String :=
  toString q.num ++ ("/") ++ toString q.den

/-- `ProgressTracker` state (main.py lines 119-213). -/
structure ProgressTracker where
  course_title : String
  status : String
  outline_status : String
  description_status : String
  content_status : List (PKey × String)
  errors : List (String × String)
  completed_count : Nat
  total_count : Nat
  logs : List LogEntry
deriving DecidableEq

/-- `ProgressTracker.__init__`. -/
def ProgressTracker.init (course_title : String) : ProgressTracker where
  course_title := course_title
  status := "initializing"
  outline_status := "pending"
  description_status := "pending"
  content_status := []
  errors := []
  completed_count := 0
  total_count := 0
  logs := []

/-- `ProgressTracker.log`. -/
def ProgressTracker.log (t : ProgressTracker)
    (level message component : String) : ProgressTracker :=
  { t with logs := t.logs ++ [⟨level, message, component⟩] }

/-- `ProgressTracker.set_outline_complete`. -/
def ProgressTracker.set_outline_complete (t : ProgressTracker)
    (units_count : Nat) : ProgressTracker :=
  let t := { t with outline_status := "complete",
                    status := "enhancing-descriptions" }
  t.log ("success")
    ("Outline generated with " ++ toString units_count ++ " units")
    ("outline")

/-- `ProgressTracker.set_descriptions_complete`: sets the expected total
and re-seeds `content_status` with the *integer* keys `1..subunit_count`
all `pending`. -/
def ProgressTracker.set_descriptions_complete (t : ProgressTracker)
    (subunit_count : Nat) : ProgressTracker :=
  let t := { t with description_status := "complete",
                    status := "generating-content",
                    total_count := subunit_count,
                    content_status :=
                      (List.range' 1 subunit_count).map
                        (fun i => (PKey.intKey i, "pending")) }
  t.log ("success")
    ("Descriptions enhanced for " ++ toString subunit_count ++ " subunits")
    ("descriptions")

/-- `ProgressTracker.start_subunit_content`: string-keyed update. -/
def ProgressTracker.start_subunit_content (t : ProgressTracker)
    (subunit_id : String) : ProgressTracker :=
  let t := { t with
    content_status :=
      dictInsert t.content_status (PKey.strKey subunit_id) ("in-progress") }
  t.log ("info") ("Starting content generation") ("subunit-" ++ subunit_id)

/-- `ProgressTracker.complete_subunit_content`: string-keyed update,
increment the counter, log the guarded percentage, and flip the overall
status to `complete` exactly when the counter reaches the total. -/
def ProgressTracker.complete_subunit_content (t : ProgressTracker)
    (subunit_id : String) : ProgressTracker :=
  let t := { t with
    content_status :=
      dictInsert t.content_status (PKey.strKey subunit_id) ("complete"),
    completed_count := t.completed_count + 1 }
  let progress := pct t.completed_count t.total_count
  let t := t.log ("success")
    ("Content generation complete. Overall progress: " ++ pctText progress ++ ("%"))
    ("subunit-" ++ subunit_id)
  if t.completed_count = t.total_count then
    ({ t with status := "complete" }).log ("success")
      ("All content generated") ("pipeline")
  else t

/-- `ProgressTracker.error_in_subunit`: string-keyed status update plus an
entry in the error map under `subunit-<id>`. -/
def ProgressTracker.error_in_subunit (t : ProgressTracker)
    (subunit_id : String) (error : String) : ProgressTracker :=
  let t := { t with
    content_status :=
      dictInsert t.content_status (PKey.strKey subunit_id) ("error"),
    errors := dictInsert t.errors ("subunit-" ++ subunit_id) error }
  t.log ("error") ("Error during content generation: " ++ error)
    ("subunit-" ++ subunit_id)

/-- The summary dict of `ProgressTracker.get_summary` (elapsed-minutes
field omitted: wall clock). -/
structure Summary where
  course_title : String
  status : String
  outline_status : String
  description_status : String
  completed_subunits : Nat
  total_subunits : Nat
  progress_percentage : Rat
  error_count : Nat
deriving DecidableEq

/-- `ProgressTracker.get_summary`. -/
def ProgressTracker.get_summary (t : ProgressTracker) : Summary where
  course_title := t.course_title
  status := t.status
  outline_status := t.outline_status
  description_status := t.description_status
  completed_subunits := t.completed_count
  total_subunits := t.total_count
  progress_percentage := pct t.completed_count t.total_count
  error_count := t.errors.length

/-! ### Pipeline stage 3 (`CoursePipeline.generate_subunit_content`,
`generate_all_content`, `run_pipeline`) -/

structure SubunitT where
  subunit_number : String
  subunit_title : String
deriving DecidableEq

structure UnitT where
  unit_number : Nat
  unit_title : String
  subunits : List SubunitT
deriving DecidableEq

structure OutlineT where
  units : List UnitT
deriving DecidableEq

structure DescT where
  subunit_number : String
  subunit_description : String
deriving DecidableEq

/-- Integer part and fraction digits of a dotted decimal literal
(`"2"`, `"1.2"`, ...), the form subunit numbers take. -/
def dottedParts (s : String) : Nat × Str :=
  match s.data.splitOn '.' with
  | [w] => (digitsToNat w, [])
  | [w, f] => (digitsToNat w, f)
  | _ => (0, [])

def padZeros (f : Str) (n : Nat) : Str :=
  f ++ List.replicate (n - f.length) '0'

/-- `float(a) <= float(b)` for dotted decimal literals: compare integer
parts, then the fraction digits right-padded with zeros to a common
length (exact decimal comparison, the order `float` induces on these
literals). -/
def dottedLe (a b : String) : Bool :=
  let pa := dottedParts a
  let pb := dottedParts b
  let n := max pa.2.length pb.2.length
  decide (pa.1 < pb.1) ||
    (pa.1 == pb.1 &&
      decide (digitsToNat (padZeros pa.2 n) ≤ digitsToNat (padZeros pb.2 n)))

/-- `CoursePipeline.generate_subunit_content` (main.py lines 521-602),
restricted to its tracker-observable behaviour: start the subunit, look up
the enhanced description by exact string match on the subunit number
(Python's `if not description:` also treats an empty description as
missing), look up the owning unit in the outline, and on success complete
the subunit.  The LLM call and the Markdown write are external effects
modelled as succeeding; either lookup failure records the error and raises
(`Except.error`). -/
def generate_subunit_content (outline : OutlineT) (descs : List DescT)
    (su : SubunitT) (t : ProgressTracker) :
    ProgressTracker × Except String Unit :=
  let sid := su.subunit_number
  let t := t.start_subunit_content sid
  let t := t.log ("info") ("Generating content for subunit " ++ sid)
    ("subunit-" ++ sid)
  match descs.find? (fun d => d.subunit_number == sid) with
  | none =>
    let msg := "No enhanced description found for subunit " ++ sid
    (t.error_in_subunit sid msg, Except.error msg)
  | some d =>
    if d.subunit_description == "" then
      let msg := "No enhanced description found for subunit " ++ sid
      (t.error_in_subunit sid msg, Except.error msg)
    else
      match outline.units.find?
          (fun u => u.subunits.any (fun s2 => s2.subunit_number == sid)) with
      | none =>
        let msg := "Could not find unit information for subunit " ++ sid
        (t.error_in_subunit sid msg, Except.error msg)
      | some _u =>
        let t := t.log ("info") ("Content saved") ("subunit-" ++ sid)
        (t.complete_subunit_content sid, Except.ok ())

/-- The `process_with_semaphore` wrapper (main.py lines 646-658): a raised
per-subunit exception is caught and recorded (again) against
`str(subunit.get("subunit_number"))`, and the run continues. -/
def process_with_semaphore (outline : OutlineT) (descs : List DescT)
    (su : SubunitT) (t : ProgressTracker) : ProgressTracker :=
  match generate_subunit_content outline descs su t with
  | (t, Except.ok _) => t
  | (t, Except.error e) => t.error_in_subunit su.subunit_number e

/-- `CoursePipeline.generate_all_content` (main.py lines 632-664): collect
every subunit, sort ascending by `float(subunit_number)` (stable), and
process each.  The semaphore-bounded concurrency is modelled by
sequential processing in the sorted order: every tracker mutation in the
source is synchronous, and the properties proved below do not depend on
the interleaving of the at-most-3 concurrent tasks. -/
def generate_all_content (outline : OutlineT) (descs : List DescT)
    (t : ProgressTracker) : ProgressTracker :=
  let all_subunits := (outline.units.map (fun u => u.subunits)).flatten
  let sorted := iSort
    (fun a b => dottedLe a.subunit_number b.subunit_number) all_subunits
  sorted.foldl (fun t su => process_with_semaphore outline descs su t) t

structure PipelineRun where
  files : List String
  tracker : ProgressTracker
deriving DecidableEq

/-- `CoursePipeline.run_pipeline` (main.py lines 604-630) after Stages 1
and 2 have succeeded (their LLM interactions are external): record stage
completions, run stage 3, and then unconditionally save the final progress
snapshot — `progress_final.json` is written whether or not individual
subunits failed, because `generate_all_content` swallows per-subunit
exceptions.  `files` lists the JSON files written to the course folder
(the per-subunit Markdown files are modelled separately, in the
frontmatter section). -/
def run_pipeline_model (course_title : String) (outline : OutlineT)
    (descs : List DescT) : PipelineRun :=
  let t := ProgressTracker.init course_title
  let t := t.set_outline_complete outline.units.length
  let t := t.set_descriptions_complete descs.length
  let t := generate_all_content outline descs t
  { files := [("course_outline.json" : String), ("enhanced_descriptions.json"),
              ("progress_final.json")],
    tracker := t }

/-- `is_course_complete` (api/main.py lines 128-131): a course is complete
iff `progress_final.json` exists in its folder. -/
def is_course_complete (files : List String) : Bool :=
  files.contains ("progress_final.json")

/-- Concrete scenario for C2: three subunits `1.1`, `1.2`, `2.1`; the
enhanced-descriptions list returned by Stage 2 is missing subunit `1.1`'s
entry, so exactly that subunit's lookup fails.  Note that the tracker's
expected total is `len(enhanced_descriptions) = 2`, not the outline's
subunit count. -/
def outlineEx : OutlineT :=
  ⟨[⟨1, "Unit One", [⟨"1.1", "Intro"⟩, ⟨"1.2", "Basics"⟩]⟩,
    ⟨2, "Unit Two", [⟨"2.1", "Advanced"⟩]⟩]⟩

def descsEx : List DescT :=
  [⟨"1.2", "enhanced description for 1.2"⟩,
   ⟨"2.1", "enhanced description for 2.1"⟩]

def runEx : PipelineRun := run_pipeline_model ("Course X") outlineEx descsEx

/-- Claim C2, confirmed.  In the 3-subunit run where subunit `1.1`'s
enhanced-description lookup fails (its entry being absent from the
Stage-2 list), the run continues, the other two subunits complete, the
error map ends with exactly one entry, and the overall status reaches
`complete`: the expected total is the description count (2), so the two
successful completions reach it. -/
theorem claim2_theorem :
    runEx.tracker.status = "complete" ∧
    runEx.tracker.get_summary.error_count = 1 ∧
    runEx.tracker.errors.length = 1 ∧
    runEx.tracker.completed_count = 2 ∧
    runEx.tracker.total_count = 2 ∧
    dictLookup runEx.tracker.content_status (PKey.strKey ("1.1"))
      = some ("error") ∧
    dictLookup runEx.tracker.content_status (PKey.strKey ("1.2"))
      = some ("complete") ∧
    dictLookup runEx.tracker.content_status (PKey.strKey ("2.1"))
      = some ("complete") := by
  decide

/-- Claim C8, confirmed.  The percentage computation is always guarded:
the Python division never raises (`pctChecked` always returns `ok`),
a zero total reports 0, `completed=2, total=4` reports 50, and the same
guarded expression logged by `complete_subunit_content` evaluates without
a `ZeroDivisionError` for a zero total. -/
theorem claim8_theorem :
    (∀ completed total : Nat,
      pctChecked completed total = Except.ok (pct completed total)) ∧
    (∀ t : ProgressTracker, t.total_count = 0 →
      t.get_summary.progress_percentage = 0) ∧
    (∀ t : ProgressTracker, t.completed_count = 2 → t.total_count = 4 →
      t.get_summary.progress_percentage = 50) ∧
    (∀ t : ProgressTracker, t.total_count = 0 →
      pctChecked (t.completed_count + 1) t.total_count = Except.ok 0) := by
  refine ⟨?_, ?_, ?_, ?_⟩
  · intro c total
    by_cases h : 0 < total
    · have hne : ((total : Nat) : Rat) ≠ 0 := by
        exact_mod_cast Nat.pos_iff_ne_zero.mp h
      simp [pctChecked, pct, pyDiv, h, hne, Except.map]
    · simp [pctChecked, pct, h]
  · intro t h
    simp [ProgressTracker.get_summary, pct, h]
  · intro t h2 h4
    simp [ProgressTracker.get_summary, pct, h2, h4]
    norm_num
  · intro t h
    simp [pctChecked, h]

theorem claim8_witness :
    pctChecked 2 4 = Except.ok (pct 2 4) ∧
    (ProgressTracker.init ("T")).get_summary.progress_percentage = 0 ∧
    ({ ProgressTracker.init ("T") with
        completed_count := 2, total_count := 4 } :
      ProgressTracker).get_summary.progress_percentage = 50 ∧
    pctChecked ((ProgressTracker.init ("T")).completed_count + 1)
        (ProgressTracker.init ("T")).total_count = Except.ok 0 :=
  ⟨claim8_theorem.1 2 4,
   claim8_theorem.2.1 _ rfl,
   claim8_theorem.2.2.1 _ rfl rfl,
   claim8_theorem.2.2.2 _ rfl⟩

/-- Scenario for C9: the Stage-2 list has three entries, but one is for a
number (`9.9`) matching no subunit, so subunit `1.1`'s lookup fails while
the expected total is 3; the two completions stop short of the total and
the final status stays `generating-content`. -/
def descsEx9 : List DescT :=
  [⟨"1.2", "enhanced description for 1.2"⟩,
   ⟨"2.1", "enhanced description for 2.1"⟩,
   ⟨"9.9", "enhanced description for a nonexistent subunit"⟩]

def runEx9 : PipelineRun := run_pipeline_model ("Course Y") outlineEx descsEx9

/-- Claim C9, confirmed.  Whenever Stages 1 and 2 succeed, `run_pipeline`
writes `progress_final.json` after Stage 3 regardless of per-subunit
failures, and `is_course_complete` derives completeness solely from that
file's existence; so a course can be reported `complete = true` while its
final progress summary has `error_count > 0` and a status other than
`complete` (scenario `runEx9`). -/
theorem claim9_theorem :
    (∀ (title : String) (outline : OutlineT) (descs : List DescT),
      is_course_complete (run_pipeline_model title outline descs).files = true) ∧
    (is_course_complete runEx9.files = true ∧
     runEx9.tracker.get_summary.error_count = 1 ∧
     ¬ runEx9.tracker.get_summary.status = "complete") := by
  refine ⟨fun _ _ _ => rfl, by decide, by decide, by decide⟩

/-! ### The two key spaces of `content_status` (claim C10) -/

/-- The per-subunit tracker calls Stage 3 can make; each carries the
string id `str(subunit_number)` it is invoked with. -/
inductive TrackerOp where
  | start (id : String)
  | complete (id : String)
  | error (id : String) (msg : String)
deriving DecidableEq

def applyOp (t : ProgressTracker) : TrackerOp → ProgressTracker
  | TrackerOp.start id => t.start_subunit_content id
  | TrackerOp.complete id => t.complete_subunit_content id
  | TrackerOp.error id msg => t.error_in_subunit id msg

def applyOps (t : ProgressTracker) (ops : List TrackerOp) : ProgressTracker :=
  ops.foldl applyOp t

def countCompletes (ops : List TrackerOp) : Nat :=
  (ops.filter (fun op => match op with
    | TrackerOp.complete _ => true
    | _ => false)).length

theorem dictLookup_dictInsert_ne [DecidableEq κ] (d : List (κ × ν))
    (k k' : κ) (v : ν) (h : k' ≠ k) :
    dictLookup (dictInsert d k v) k' = dictLookup d k' := by
  induction d with
  | nil =>
    simp only [dictInsert, dictLookup]
    rw [if_neg (fun hk => h hk.symm)]
  | cons p rest ih =>
    obtain ⟨k0, v0⟩ := p
    simp only [dictInsert]
    by_cases h0 : k0 = k
    · rw [if_pos h0]
      simp only [dictLookup]
      rw [if_neg (fun hk => h hk.symm), if_neg (fun hk => h (hk.symm.trans h0))]
    · rw [if_neg h0]
      simp only [dictLookup]
      by_cases h1 : k0 = k'
      · rw [if_pos h1, if_pos h1]
      · rw [if_neg h1, if_neg h1, ih]

theorem start_fields (t : ProgressTracker) (id : String) (n : Nat) :
    dictLookup (t.start_subunit_content id).content_status (PKey.intKey n)
      = dictLookup t.content_status (PKey.intKey n) ∧
    (t.start_subunit_content id).completed_count = t.completed_count ∧
    (t.start_subunit_content id).total_count = t.total_count ∧
    (t.start_subunit_content id).status = t.status := by
  refine ⟨?_, rfl, rfl, rfl⟩
  exact dictLookup_dictInsert_ne _ _ _ _ (by simp)

theorem error_fields (t : ProgressTracker) (id msg : String) (n : Nat) :
    dictLookup (t.error_in_subunit id msg).content_status (PKey.intKey n)
      = dictLookup t.content_status (PKey.intKey n) ∧
    (t.error_in_subunit id msg).completed_count = t.completed_count ∧
    (t.error_in_subunit id msg).total_count = t.total_count ∧
    (t.error_in_subunit id msg).status = t.status := by
  refine ⟨?_, rfl, rfl, rfl⟩
  exact dictLookup_dictInsert_ne _ _ _ _ (by simp)

theorem complete_fields (t : ProgressTracker) (id : String) (n : Nat) :
    dictLookup (t.complete_subunit_content id).content_status (PKey.intKey n)
      = dictLookup t.content_status (PKey.intKey n) ∧
    (t.complete_subunit_content id).completed_count = t.completed_count + 1 ∧
    (t.complete_subunit_content id).total_count = t.total_count ∧
    (t.complete_subunit_content id).status =
      (if t.completed_count + 1 = t.total_count then "complete" else t.status) := by
  unfold ProgressTracker.complete_subunit_content ProgressTracker.log
  by_cases h : t.completed_count + 1 = t.total_count <;>
    simp [h, dictLookup_dictInsert_ne _ _ _ _
      (show PKey.intKey n ≠ PKey.strKey id by simp)]

theorem applyOps_intKey (ops : List TrackerOp) :
    ∀ (t : ProgressTracker) (n : Nat),
    dictLookup (applyOps t ops).content_status (PKey.intKey n)
      = dictLookup t.content_status (PKey.intKey n) := by
  induction ops with
  | nil => intro t n; rfl
  | cons op rest ih =>
    intro t n
    show dictLookup (applyOps (applyOp t op) rest).content_status _ = _
    rw [ih]
    cases op with
    | start id => exact (start_fields t id n).1
    | complete id => exact (complete_fields t id n).1
    | error id msg => exact (error_fields t id msg n).1

theorem applyOps_counter (ops : List TrackerOp) :
    ∀ t : ProgressTracker,
    (applyOps t ops).completed_count = t.completed_count + countCompletes ops ∧
    (applyOps t ops).total_count = t.total_count ∧
    (applyOps t ops).status =
      (if t.completed_count < t.total_count ∧
          t.total_count ≤ t.completed_count + countCompletes ops
       then "complete" else t.status) := by
  induction ops with
  | nil =>
    intro t
    refine ⟨rfl, rfl, ?_⟩
    show t.status = if t.completed_count < t.total_count ∧
        t.total_count ≤ t.completed_count + 0 then "complete" else t.status
    rw [if_neg (by omega)]
  | cons op rest ih =>
    intro t
    have h := ih (applyOp t op)
    have hstep : applyOps t (op :: rest) = applyOps (applyOp t op) rest := rfl
    rw [hstep]
    cases op with
    | start id =>
      simp only [applyOp] at h ⊢
      have hf := start_fields t id 0
      have hcc : countCompletes (TrackerOp.start id :: rest)
          = countCompletes rest := by simp [countCompletes]
      rw [hf.2.1, hf.2.2.1, hf.2.2.2] at h
      rw [hcc]
      exact h
    | error id msg =>
      simp only [applyOp] at h ⊢
      have hf := error_fields t id msg 0
      have hcc : countCompletes (TrackerOp.error id msg :: rest)
          = countCompletes rest := by simp [countCompletes]
      rw [hf.2.1, hf.2.2.1, hf.2.2.2] at h
      rw [hcc]
      exact h
    | complete id =>
      simp only [applyOp] at h ⊢
      have hf := complete_fields t id 0
      have hcc : countCompletes (TrackerOp.complete id :: rest)
          = countCompletes rest + 1 := by simp [countCompletes]
      rw [hf.2.1, hf.2.2.1, hf.2.2.2] at h
      obtain ⟨h1, h2, h3⟩ := h
      rw [hcc]
      refine ⟨by rw [h1]; omega, h2, ?_⟩
      by_cases hN : t.completed_count + 1 = t.total_count
      · rw [if_pos hN] at h3
        rw [h3, ite_self, if_pos (by omega)]
      · rw [if_neg hN] at h3
        rw [h3]
        exact if_congr (by omega) rfl rfl

theorem log_content (t : ProgressTracker) (l m c : String) :
    (t.log l m c).content_status = t.content_status := rfl

theorem lookup_seed_mem :
    ∀ (L : List Nat) (n : Nat), n ∈ L →
    dictLookup (L.map (fun i => (PKey.intKey i, ("pending" : String))))
      (PKey.intKey n) = some ("pending") := by
  intro L
  induction L with
  | nil => intro n hn; simp at hn
  | cons a t ih =>
    intro n hn
    simp only [List.map_cons, dictLookup]
    by_cases h : a = n
    · rw [if_pos (by rw [h])]
    · rw [if_neg (by simpa using h)]
      refine ih n ?_
      rcases List.mem_cons.mp hn with h1 | h1
      · exact absurd h1.symm h
      · exact h1

theorem process_intKey (o : OutlineT) (d : List DescT) (su : SubunitT)
    (t : ProgressTracker) (n : Nat) :
    dictLookup (process_with_semaphore o d su t).content_status (PKey.intKey n)
      = dictLookup t.content_status (PKey.intKey n) := by
  unfold process_with_semaphore generate_subunit_content
  rcases hf : d.find? (fun x => x.subunit_number == su.subunit_number)
      with _ | df
  · simp only [hf]
    rw [(error_fields _ _ _ n).1, (error_fields _ _ _ n).1, log_content,
      (start_fields _ _ n).1]
  · simp only [hf]
    by_cases hd : (df.subunit_description == "") = true
    · rw [if_pos hd]
      rw [(error_fields _ _ _ n).1, (error_fields _ _ _ n).1, log_content,
        (start_fields _ _ n).1]
    · rw [if_neg hd]
      rcases hu : o.units.find?
          (fun u => u.subunits.any (fun s2 => s2.subunit_number == su.subunit_number))
          with _ | u0
      · simp only [hu]
        rw [(error_fields _ _ _ n).1, (error_fields _ _ _ n).1, log_content,
          (start_fields _ _ n).1]
      · simp only [hu]
        rw [(complete_fields _ _ n).1, log_content, log_content,
          (start_fields _ _ n).1]

theorem foldl_process_intKey (o : OutlineT) (d : List DescT) :
    ∀ (l : List SubunitT) (t : ProgressTracker) (n : Nat),
    dictLookup
      ((l.foldl (fun t su => process_with_semaphore o d su t) t)).content_status
      (PKey.intKey n)
      = dictLookup t.content_status (PKey.intKey n) := by
  intro l
  induction l with
  | nil => intro t n; rfl
  | cons su rest ih =>
    intro t n
    show dictLookup
      ((rest.foldl (fun t su => process_with_semaphore o d su t)
        (process_with_semaphore o d su t))).content_status _ = _
    rw [ih, process_intKey]

/-- Claim C10, confirmed.  (i) After `set_descriptions_complete` seeds
`content_status` with integer keys `1..N` (here `N` is the number of
Stage-2 descriptions), every per-subunit update of Stage 3 writes under a
*string* key `str(subunit_number)`, so at the end of any run the integer
keys `1..N` still map to `pending`.  (ii) Over any sequence of
per-subunit calls, the overall status becomes `complete` exactly when the
completion counter reaches the expected total — the `content_status` map
plays no part in the transition. -/
theorem claim10_theorem :
    (∀ (title : String) (outline : OutlineT) (descs : List DescT) (n : Nat),
      1 ≤ n → n ≤ descs.length →
      dictLookup (run_pipeline_model title outline descs).tracker.content_status
        (PKey.intKey n) = some ("pending")) ∧
    (∀ (title : String) (units_count N : Nat) (ops : List TrackerOp),
      (applyOps
          (((ProgressTracker.init title).set_outline_complete
              units_count).set_descriptions_complete N) ops).status
        = "complete"
      ↔ (1 ≤ N ∧ N ≤ countCompletes ops)) := by
  constructor
  · intro title outline descs n h1 h2
    show dictLookup (generate_all_content outline descs _).content_status _ = _
    unfold generate_all_content
    rw [foldl_process_intKey]
    show dictLookup ((List.range' 1 descs.length).map
      (fun i => (PKey.intKey i, "pending"))) (PKey.intKey n) = some ("pending")
    exact lookup_seed_mem _ n (List.mem_range'_1.mpr ⟨h1, by omega⟩)
  · intro title units_count N ops
    have h := (applyOps_counter ops
      (((ProgressTracker.init title).set_outline_complete
          units_count).set_descriptions_complete N)).2.2
    have hc : (((ProgressTracker.init title).set_outline_complete
        units_count).set_descriptions_complete N).completed_count = 0 := rfl
    have ht : (((ProgressTracker.init title).set_outline_complete
        units_count).set_descriptions_complete N).total_count = N := rfl
    have hs : (((ProgressTracker.init title).set_outline_complete
        units_count).set_descriptions_complete N).status
        = "generating-content" := rfl
    rw [hc, ht, hs] at h
    rw [h]
    by_cases hcond : 0 < N ∧ N ≤ 0 + countCompletes ops
    · rw [if_pos hcond]
      constructor
      · intro _; omega
      · intro _; rfl
    · rw [if_neg hcond]
      constructor
      · intro hfalse; exact absurd hfalse (by decide)
      · intro hyp; omega

/-! ## Markdown frontmatter round trip (`main.py` `FileUtils.save_markdown`,
`api/main.py` `parse_markdown_frontmatter`) -/

def quoteChar : Char := Char.ofNat 34

def backslash : Char := Char.ofNat 92

/-- The data `save_markdown` writes into the frontmatter (main.py lines
376-385); every scalar is rendered through `f"{value}"`, so scalar fields
are strings here. -/
structure FMRecord where
  title : Str
  unit : Str
  unit_number : Str
  subunit_number : Str
  course : Str
  difficulty_level : Str
  learning_objectives : List Str
  key_topics : List Str
deriving DecidableEq

/-- `f"{key}: \"{value}\"\n"`, without the trailing newline. -/
def quoteLine (key v : Str) : Str :=
  key ++ (':' :: ' ' :: quoteChar :: (v ++ [quoteChar]))

/-- `f"  - \"{item}\"\n"`, without the trailing newline. -/
def itemLine (v : Str) : Str :=
  ' ' :: ' ' :: '-' :: ' ' :: quoteChar :: (v ++ [quoteChar])

/-- `f"{key}:\n"` followed by one item line per element. -/
def listLines (key : Str) (vs : List Str) : List Str :=
  (key ++ [':']) :: vs.map itemLine

/-- The frontmatter lines in the insertion order of the `frontmatter`
dict (main.py lines 388-396). -/
def fmLines (r : FMRecord) : List Str :=
  [quoteLine (litS ("title")) r.title,
   quoteLine (litS ("unit")) r.unit,
   quoteLine (litS ("unit_number")) r.unit_number,
   quoteLine (litS ("subunit_number")) r.subunit_number,
   quoteLine (litS ("course")) r.course,
   quoteLine (litS ("difficulty_level")) r.difficulty_level] ++
  (listLines (litS ("learning_objectives")) r.learning_objectives ++
   listLines (litS ("key_topics")) r.key_topics)

/-- Each line followed by `\n`. -/
def joinNl (lines : List Str) : Str :=
  (lines.map (fun l => l ++ ['\n'])).flatten

/-- The full file text written by `save_markdown`:
`"---\n" + <lines> + "---\n\n" + content`. -/
def save_markdown_text (r : FMRecord) (content : Str) : Str :=
  ((litS ("---")) ++ ['\n']) ++
  (joinNl (fmLines r) ++ (((litS ("---")) ++ ['\n']) ++ ('\n' :: content)))

/-- A YAML value in the fragment `save_markdown` emits: double-quoted
scalars, block sequences of double-quoted scalars, and the null a key
with no items produces. -/
inductive YVal where
  | s (v : Str)
  | list (vs : List Str)
  | null
deriving DecidableEq

/-- Modelled from the spec: `yaml.safe_load` (the YAML library is an
external dependency of this repository) restricted to the frontmatter
fragment `save_markdown` emits.  A double-quoted scalar is well-formed
only when its interior holds no quote and no backslash: an interior quote
makes the document ill-formed (`safe_load` raises, and the caller then
keeps the empty dict); backslash escape sequences are outside the
modelled fragment and are conservatively treated the same way. -/
def parseQuoted (l : Str) : Option Str :=
  match l with
  | [] => none
  | c :: rest =>
    if c == quoteChar && !rest.isEmpty && (rest.getLast? == some quoteChar) &&
        rest.dropLast.all (fun d => !(d == quoteChar) && !(d == backslash))
    then some rest.dropLast else none

/-- A plain YAML mapping key of the shape the serializer emits. -/
def plainKey (k : Str) : Bool :=
  !k.isEmpty && k.all (fun c => c.isAlpha || c == '_')

/-- One mapping line `key: "value"`. -/
def parseScalarLine (l : Str) : Option (Str × Str) :=
  let k := l.takeWhile (fun c => c != ':')
  if plainKey k then
    match l.drop k.length with
    | ':' :: ' ' :: q => (parseQuoted q).map (fun v => (k, v))
    | _ => none
  else none

/-- A line `key:` opening a block sequence (or a null value). -/
def parseListKeyLine (l : Str) : Option Str :=
  if l.getLast? == some ':' && plainKey l.dropLast then some l.dropLast
  else none

/-- A block sequence item `  - "value"`. -/
def parseItemLine (l : Str) : Option Str :=
  if strPref (litS ("  - ")) l then parseQuoted (l.drop 4) else none

/-- Append an item to the most recently opened block sequence. -/
def pushItem (acc : List (Str × YVal)) (v : Str) :
    Option (List (Str × YVal)) :=
  match acc with
  | (k, YVal.null) :: rest => some ((k, YVal.list [v]) :: rest)
  | (k, YVal.list vs) :: rest => some ((k, YVal.list (vs ++ [v])) :: rest)
  | _ => none

/-- Line-by-line parse of the frontmatter mapping; `acc` holds the
entries in reverse, the flag records whether the previous line belongs to
a block sequence.  Any line outside the fragment makes the document
ill-formed (`none`, i.e. `yaml.YAMLError`). -/
def parseGo : List Str → List (Str × YVal) → Bool → Option (List (Str × YVal))
  | [], acc, _ => some acc.reverse
  | l :: ls, acc, inList =>
    match parseScalarLine l with
    | some (k, v) => parseGo ls ((k, YVal.s v) :: acc) false
    | none =>
      match parseListKeyLine l with
      | some k => parseGo ls ((k, YVal.null) :: acc) true
      | none =>
        match parseItemLine l with
        | some v =>
          if inList then
            match pushItem acc v with
            | some acc2 => parseGo ls acc2 true
            | none => none
          else none
        | none => none

/-- Python `str.split("\n")`. -/
def splitNl : Str → List Str
  | [] => [[]]
  | c :: rest =>
    if c == '\n' then [] :: splitNl rest
    else
      match splitNl rest with
      | [] => [[c]]
      | l :: ls => (c :: l) :: ls

/-- `parse_markdown_frontmatter` (api/main.py lines 199-213):
`re.match(r'^---\n(.*?)\n---\n(.*)', content, re.DOTALL)` splits the
frontmatter text (group 1: the non-greedy group ends at the *first*
`\n---\n`) from the body (group 2: everything after it, which keeps the
separating blank line); `yaml.safe_load` errors leave the frontmatter
empty; no match leaves the whole content as the body. -/
def parse_markdown_frontmatter (content : Str) :
    List (Str × YVal) × Str :=
  if strPref ((litS ("---")) ++ ['\n']) content then
    match findSubIdx ('\n' :: ((litS ("---")) ++ ['\n'])) (content.drop 4) with
    | some j =>
      match parseGo (splitNl ((content.drop 4).take j)) [] false with
      | some fm => (fm, (content.drop 4).drop (j + 5))
      | none => ([], (content.drop 4).drop (j + 5))
    | none => ([], content)
  else ([], content)

/-- `frontmatter.get(key)` on the parsed mapping. -/
def fmLookup (fm : List (Str × YVal)) (k : Str) : Option YVal :=
  (fm.find? (fun p => p.1 == k)).map (fun p => p.2)

/-- Strings that survive the quoting-free serialization: no quote, no
backslash, no newline. -/
def safeStr (v : Str) : Prop :=
  ∀ c ∈ v, c ≠ quoteChar ∧ c ≠ backslash ∧ c ≠ '\n'

instance (v : Str) : Decidable (safeStr v) :=
  inferInstanceAs (Decidable (∀ c ∈ v, c ≠ quoteChar ∧ c ≠ backslash ∧ c ≠ '\n'))

/-- All strings of the record are safe. -/
def FMRecord.Safe (r : FMRecord) : Prop :=
  safeStr r.title ∧ safeStr r.unit ∧ safeStr r.unit_number ∧
  safeStr r.subunit_number ∧ safeStr r.course ∧ safeStr r.difficulty_level ∧
  (∀ v ∈ r.learning_objectives, safeStr v) ∧ (∀ v ∈ r.key_topics, safeStr v)

instance (r : FMRecord) : Decidable r.Safe :=
  inferInstanceAs (Decidable (safeStr r.title ∧ safeStr r.unit ∧
    safeStr r.unit_number ∧ safeStr r.subunit_number ∧ safeStr r.course ∧
    safeStr r.difficulty_level ∧ (∀ v ∈ r.learning_objectives, safeStr v) ∧
    (∀ v ∈ r.key_topics, safeStr v)))

/-! ## JSON extraction (`main.py` `CoursePipeline._extract_json`) -/

/-- Regex `\s` / `str.strip` whitespace (ASCII fragment). -/
def isPySpace (c : Char) : Bool :=
  c == ' ' || c == '\t' || c == '\n' || c == '\r' ||
  c == Char.ofNat 11 || c == Char.ofNat 12

/-- Python `str.strip()`. -/
def strip (s : Str) : Str :=
  ((s.dropWhile isPySpace).reverse.dropWhile isPySpace).reverse

def backtick : Char := Char.ofNat 96

/-- A code fence: three backticks. -/
def fenceStr : Str := [backtick, backtick, backtick]

def lBrace : Char := Char.ofNat 123
def rBrace : Char := Char.ofNat 125

/-- The fenced-block branch, `re.search` of three backticks, an optional
`json` tag, `\s*`, a lazy group, `\s*`, three backticks, then
`.group(1).strip()`: at the leftmost fence having a later closing fence,
the tag is consumed when the following text starts with `json`, the lazy
group ends at the first subsequent fence, and the two `\s*`s only shift
whitespace that the final `strip` removes anyway — so the result is the
text strictly between the (tag-adjusted) opening and the next closing
fence, stripped. -/
def fenceSearch : Str → Option Str
  | [] => none
  | s@(_ :: rest) =>
    if strPref fenceStr s then
      let r1 := s.drop 3
      let r2 := if strPref (litS ("json")) r1 then r1.drop 4 else r1
      match findSubIdx fenceStr r2 with
      | some j => some (strip (r2.take j))
      | none => fenceSearch rest
    else fenceSearch rest

/-- Index of the last occurrence of `c`, if any. -/
def lastIdxOf (c : Char) : Str → Option Nat
  | [] => none
  | a :: rest =>
    match lastIdxOf c rest with
    | some j => some (j + 1)
    | none => if a == c then some 0 else none

/-- The bracket branch, `re.search(r'(\{[\s\S]*\}|\[[\s\S]*\])')`: the
leftmost `{` having a later `}` (or `[` having a later `]`), the greedy
`[\s\S]*` extending the span to the last such closer. -/
def bracketSearch : Str → Option Str
  | [] => none
  | a :: rest =>
    if a == lBrace then
      match lastIdxOf rBrace rest with
      | some j => some (a :: rest.take (j + 1))
      | none => bracketSearch rest
    else if a == '[' then
      match lastIdxOf ']' rest with
      | some j => some (a :: rest.take (j + 1))
      | none => bracketSearch rest
    else bracketSearch rest

/-- `CoursePipeline._extract_json` (main.py lines 666-679): fenced block
first, then bracket span, then the trimmed raw text. -/
def extract_json (content : Str) : Str :=
  match fenceSearch content with
  | some r => r
  | none =>
    match bracketSearch content with
    | some r => strip r
    | none => strip content

theorem strPref_append_self : ∀ p x : Str, strPref p (p ++ x) = true
  | [], _ => rfl
  | a :: p, x => by
    simp only [List.cons_append, strPref, beq_self_eq_true, Bool.true_and]
    exact strPref_append_self p x

theorem fenceSearch_skip :
    ∀ (pre rest : Str), (∀ c ∈ pre, c ≠ backtick) →
    fenceSearch (pre ++ rest) = fenceSearch rest := by
  intro pre
  induction pre with
  | nil => intro rest _; rfl
  | cons a p ih =>
    intro rest h
    have ha : a ≠ backtick := h a (List.mem_cons_self a p)
    show fenceSearch (a :: (p ++ rest)) = fenceSearch rest
    have hpref : strPref fenceStr (a :: (p ++ rest)) = false := by
      simp only [fenceStr, strPref, Bool.and_eq_false_iff, beq_eq_false_iff_ne]
      exact Or.inl (fun hc => ha hc.symm)
    simp only [fenceSearch, hpref, Bool.false_eq_true, if_false]
    exact ih rest (fun c hc => h c (List.mem_cons_of_mem a hc))

theorem fenceSearch_none :
    ∀ (s : Str), (∀ c ∈ s, c ≠ backtick) → fenceSearch s = none := by
  intro s
  induction s with
  | nil => intro _; rfl
  | cons a p ih =>
    intro h
    have ha : a ≠ backtick := h a (List.mem_cons_self a p)
    have hpref : strPref fenceStr (a :: p) = false := by
      simp only [fenceStr, strPref, Bool.and_eq_false_iff, beq_eq_false_iff_ne]
      exact Or.inl (fun hc => ha hc.symm)
    simp only [fenceSearch, hpref, Bool.false_eq_true, if_false]
    exact ih (fun c hc => h c (List.mem_cons_of_mem a hc))

theorem findSubIdx_cons (pat : Str) (a : Char) (rest : Str) :
    findSubIdx pat (a :: rest) =
      (if strPref pat (a :: rest) then some 0
       else (findSubIdx pat rest).map (· + 1)) := rfl

theorem fenceSearch_cons (a : Char) (rest : Str) :
    fenceSearch (a :: rest) =
      (if strPref fenceStr (a :: rest) then
        match findSubIdx fenceStr
            (if strPref (litS ("json")) ((a :: rest).drop 3)
             then ((a :: rest).drop 3).drop 4 else (a :: rest).drop 3) with
        | some j =>
          some (strip ((if strPref (litS ("json")) ((a :: rest).drop 3)
             then ((a :: rest).drop 3).drop 4 else (a :: rest).drop 3).take j))
        | none => fenceSearch rest
      else fenceSearch rest) := rfl

theorem bracketSearch_cons (a : Char) (rest : Str) :
    bracketSearch (a :: rest) =
      (if a == lBrace then
        match lastIdxOf rBrace rest with
        | some j => some (a :: rest.take (j + 1))
        | none => bracketSearch rest
      else if a == '[' then
        match lastIdxOf ']' rest with
        | some j => some (a :: rest.take (j + 1))
        | none => bracketSearch rest
      else bracketSearch rest) := rfl

theorem findSubIdx_fence :
    ∀ (body suf : Str), (∀ c ∈ body, c ≠ backtick) →
    findSubIdx fenceStr (body ++ (fenceStr ++ suf)) = some body.length := by
  intro body
  induction body with
  | nil =>
    intro suf _
    have hopen : strPref fenceStr
        (backtick :: (backtick :: (backtick :: suf))) = true :=
      strPref_append_self fenceStr suf
    show findSubIdx fenceStr (backtick :: (backtick :: (backtick :: suf)))
      = some 0
    rw [findSubIdx_cons, if_pos hopen]
  | cons a p ih =>
    intro suf h
    have ha : a ≠ backtick := h a (List.mem_cons_self a p)
    have hpref : strPref fenceStr (a :: (p ++ (fenceStr ++ suf))) = false := by
      simp only [fenceStr, strPref, Bool.and_eq_false_iff, beq_eq_false_iff_ne]
      exact Or.inl (fun hc => ha hc.symm)
    show findSubIdx fenceStr (a :: (p ++ (fenceStr ++ suf)))
      = some (p.length + 1)
    rw [findSubIdx_cons, if_neg (by simp [hpref]),
      ih suf (fun c hc => h c (List.mem_cons_of_mem a hc))]
    rfl

theorem lastIdxOf_none :
    ∀ (s : Str) (c : Char), (∀ x ∈ s, x ≠ c) → lastIdxOf c s = none := by
  intro s c
  induction s with
  | nil => intro _; rfl
  | cons a p ih =>
    intro h
    simp only [lastIdxOf, ih (fun x hx => h x (List.mem_cons_of_mem a hx))]
    rw [if_neg (by simpa using h a (List.mem_cons_self a p))]

theorem lastIdxOf_append_none (c : Char) :
    ∀ (xs ys : Str), lastIdxOf c ys = none →
    lastIdxOf c (xs ++ ys) = lastIdxOf c xs := by
  intro xs
  induction xs with
  | nil => intro ys h; simpa using h
  | cons a p ih =>
    intro ys h
    show lastIdxOf c (a :: (p ++ ys)) = _
    simp only [lastIdxOf, ih ys h]

theorem bracketSearch_skip :
    ∀ (pre rest : Str), (∀ c ∈ pre, c ≠ lBrace ∧ c ≠ '[') →
    bracketSearch (pre ++ rest) = bracketSearch rest := by
  intro pre
  induction pre with
  | nil => intro rest _; rfl
  | cons a p ih =>
    intro rest h
    have ha := h a (List.mem_cons_self a p)
    show bracketSearch (a :: (p ++ rest)) = _
    simp only [bracketSearch]
    rw [if_neg (by simpa using ha.1), if_neg (by simpa using ha.2)]
    exact ih rest (fun c hc => h c (List.mem_cons_of_mem a hc))

theorem bracketSearch_none :
    ∀ (s : Str), (∀ c ∈ s, c ≠ lBrace ∧ c ≠ '[') → bracketSearch s = none := by
  intro s
  induction s with
  | nil => intro _; rfl
  | cons a p ih =>
    intro h
    have ha := h a (List.mem_cons_self a p)
    simp only [bracketSearch]
    rw [if_neg (by simpa using ha.1), if_neg (by simpa using ha.2)]
    exact ih (fun c hc => h c (List.mem_cons_of_mem a hc))

theorem extract_json_fence_tagged (pre body suf : Str)
    (hpre : ∀ c ∈ pre, c ≠ backtick) (hbody : ∀ c ∈ body, c ≠ backtick) :
    extract_json
        (pre ++ (fenceStr ++ (litS ("json") ++ (body ++ (fenceStr ++ suf)))))
      = strip body := by
  have hfs : fenceSearch
      (fenceStr ++ (litS ("json") ++ (body ++ (fenceStr ++ suf))))
      = some (strip body) := by
    have hopen : strPref fenceStr (backtick :: (backtick :: (backtick ::
        (litS ("json") ++ (body ++ (fenceStr ++ suf)))))) = true :=
      strPref_append_self fenceStr _
    show fenceSearch (backtick :: (backtick :: (backtick ::
      (litS ("json") ++ (body ++ (fenceStr ++ suf)))))) = some (strip body)
    rw [fenceSearch_cons, if_pos hopen]
    have hd3 : (backtick :: (backtick :: (backtick ::
        (litS ("json") ++ (body ++ (fenceStr ++ suf)))))).drop 3
        = litS ("json") ++ (body ++ (fenceStr ++ suf)) := rfl
    rw [hd3, if_pos (strPref_append_self (litS ("json")) _)]
    have hd4 : (litS ("json") ++ (body ++ (fenceStr ++ suf))).drop 4
        = body ++ (fenceStr ++ suf) := rfl
    rw [hd4, findSubIdx_fence body suf hbody]
    show some (strip ((body ++ (fenceStr ++ suf)).take body.length))
      = some (strip body)
    rw [List.take_left body (fenceStr ++ suf)]
  unfold extract_json
  rw [fenceSearch_skip pre _ hpre, hfs]

theorem extract_json_fence_untagged (pre body suf : Str)
    (hpre : ∀ c ∈ pre, c ≠ backtick) (hbody : ∀ c ∈ body, c ≠ backtick)
    (htag : strPref (litS ("json")) (body ++ (fenceStr ++ suf)) = false) :
    extract_json (pre ++ (fenceStr ++ (body ++ (fenceStr ++ suf))))
      = strip body := by
  have hfs : fenceSearch (fenceStr ++ (body ++ (fenceStr ++ suf)))
      = some (strip body) := by
    have hopen : strPref fenceStr (backtick :: (backtick :: (backtick ::
        (body ++ (fenceStr ++ suf))))) = true :=
      strPref_append_self fenceStr _
    show fenceSearch (backtick :: (backtick :: (backtick ::
      (body ++ (fenceStr ++ suf))))) = some (strip body)
    rw [fenceSearch_cons, if_pos hopen]
    have hd3 : (backtick :: (backtick :: (backtick ::
        (body ++ (fenceStr ++ suf))))).drop 3
        = body ++ (fenceStr ++ suf) := rfl
    rw [hd3, if_neg (by simp [htag]), findSubIdx_fence body suf hbody]
    show some (strip ((body ++ (fenceStr ++ suf)).take body.length))
      = some (strip body)
    rw [List.take_left body (fenceStr ++ suf)]
  unfold extract_json
  rw [fenceSearch_skip pre _ hpre, hfs]

theorem extract_json_bracket (pre suf : Str)
    (hpre : ∀ c ∈ pre, c ≠ backtick ∧ c ≠ lBrace ∧ c ≠ '[')
    (hsuf : ∀ c ∈ suf, c ≠ backtick ∧ c ≠ ']') :
    extract_json (pre ++ (litS ("[1,2,3]") ++ suf)) = litS ("[1,2,3]") := by
  have hnofence : fenceSearch (pre ++ (litS ("[1,2,3]") ++ suf)) = none := by
    apply fenceSearch_none
    intro c hc
    rcases List.mem_append.mp hc with hc | hc
    · exact (hpre c hc).1
    · rcases List.mem_append.mp hc with hc | hc
      · intro hceq; rw [hceq] at hc; revert hc; decide
      · exact (hsuf c hc).1
  have hlast : lastIdxOf ']' (litS ("1,2,3]") ++ suf) = some 5 := by
    rw [lastIdxOf_append_none ']' _ suf
      (lastIdxOf_none suf ']' (fun x hx => (hsuf x hx).2))]
    decide
  have hbs : bracketSearch ('[' :: (litS ("1,2,3]") ++ suf))
      = some (litS ("[1,2,3]")) := by
    rw [bracketSearch_cons, if_neg (by decide), if_pos (by decide), hlast]
    show some ('[' :: (litS ("1,2,3]") ++ suf).take (5 + 1))
      = some (litS ("[1,2,3]"))
    have htake : (litS ("1,2,3]") ++ suf).take (5 + 1) = litS ("1,2,3]") :=
      List.take_left (litS ("1,2,3]")) suf
    rw [htake]
    rfl
  unfold extract_json
  rw [hnofence,
    bracketSearch_skip pre _ (fun c hc => ⟨(hpre c hc).2.1, (hpre c hc).2.2⟩)]
  show (match bracketSearch ('[' :: (litS ("1,2,3]") ++ suf)) with
    | some r => strip r
    | none => strip (pre ++ (litS ("[1,2,3]") ++ suf))) = litS ("[1,2,3]")
  rw [hbs]
  rfl

theorem extract_json_fallback (s : Str)
    (h : ∀ c ∈ s, c ≠ backtick ∧ c ≠ lBrace ∧ c ≠ '[') :
    extract_json s = strip s := by
  unfold extract_json
  rw [fenceSearch_none s (fun c hc => (h c hc).1),
    bracketSearch_none s (fun c hc => ⟨(h c hc).2.1, (h c hc).2.2⟩)]

/-- Claim C7, confirmed.  `_extract_json` prefers, in order: the trimmed
contents of the first fenced code block (optionally tagged `json`); else
the trimmed first `{...}`/`[...]` span (leftmost opener, greedily to the
last closer); else the whole input trimmed.  In particular an input with
no fence containing `[1,2,3]` extracts to `[1,2,3]`, and an input with
neither fence nor brackets returns the trimmed original text. -/
theorem claim7_theorem :
    (∀ pre body suf : Str, (∀ c ∈ pre, c ≠ backtick) →
      (∀ c ∈ body, c ≠ backtick) →
      extract_json
          (pre ++ (fenceStr ++ (litS ("json") ++ (body ++ (fenceStr ++ suf)))))
        = strip body) ∧
    (∀ pre body suf : Str, (∀ c ∈ pre, c ≠ backtick) →
      (∀ c ∈ body, c ≠ backtick) →
      strPref (litS ("json")) (body ++ (fenceStr ++ suf)) = false →
      extract_json (pre ++ (fenceStr ++ (body ++ (fenceStr ++ suf))))
        = strip body) ∧
    (∀ pre suf : Str, (∀ c ∈ pre, c ≠ backtick ∧ c ≠ lBrace ∧ c ≠ '[') →
      (∀ c ∈ suf, c ≠ backtick ∧ c ≠ ']') →
      extract_json (pre ++ (litS ("[1,2,3]") ++ suf)) = litS ("[1,2,3]")) ∧
    (∀ s : Str, (∀ c ∈ s, c ≠ backtick ∧ c ≠ lBrace ∧ c ≠ '[') →
      extract_json s = strip s) ∧
    extract_json (litS ("no fence here [1,2,3] trailing")) = litS ("[1,2,3]") ∧
    extract_json (litS ("  just plain text  ")) = litS ("just plain text") :=
  ⟨extract_json_fence_tagged, extract_json_fence_untagged,
   extract_json_bracket, extract_json_fallback, by decide, by decide⟩

theorem claim7_witness :
    extract_json
        ((litS ("prefix ")) ++ (fenceStr ++ (litS ("json") ++
          ((litS ("\npayload\n")) ++ (fenceStr ++ (litS (" suffix")))))))
      = strip (litS ("\npayload\n")) ∧
    extract_json ((litS ("ab ")) ++ (litS ("[1,2,3]") ++ (litS (" cd"))))
      = litS ("[1,2,3]") ∧
    extract_json (litS ("neither fences nor spans")) =
      strip (litS ("neither fences nor spans")) :=
  ⟨claim7_theorem.1 _ _ _ (by decide) (by decide),
   claim7_theorem.2.2.1 _ _ (by decide) (by decide),
   claim7_theorem.2.2.2.1 _ (by decide)⟩

theorem claim10_witness :
    dictLookup runEx9.tracker.content_status (PKey.intKey 1)
      = some ("pending") ∧
    ((applyOps
        (((ProgressTracker.init ("T")).set_outline_complete
            2).set_descriptions_complete 2)
        [TrackerOp.start ("1.1"), TrackerOp.complete ("1.1"),
         TrackerOp.error ("1.2") ("boom"), TrackerOp.complete ("2.1")]).status
      = "complete"
    ↔ (1 ≤ 2 ∧ 2 ≤ countCompletes
        [TrackerOp.start ("1.1"), TrackerOp.complete ("1.1"),
         TrackerOp.error ("1.2") ("boom"), TrackerOp.complete ("2.1")])) :=
  ⟨claim10_theorem.1 ("Course Y") outlineEx descsEx9 1 (by decide) (by decide),
   claim10_theorem.2 ("T") 2 2 _⟩

/-! ### Frontmatter round trip: line-level parse lemmas -/

theorem parseQuoted_ok (v : Str) (hv : safeStr v) :
    parseQuoted (quoteChar :: (v ++ [quoteChar])) = some v := by
  have h1 : (v ++ [quoteChar]).getLast? = some quoteChar :=
    List.getLast?_concat _
  have h2 : (v ++ [quoteChar]).dropLast = v := List.dropLast_concat
  have h3 : (v ++ [quoteChar]).isEmpty = false := by
    cases v <;> rfl
  have h4 : v.all (fun d => !(d == quoteChar) && !(d == backslash)) = true := by
    rw [List.all_eq_true]
    intro c hc
    have hs := hv c hc
    simp [hs.1, hs.2.1]
  unfold parseQuoted
  show (if (quoteChar == quoteChar && !(v ++ [quoteChar]).isEmpty &&
      ((v ++ [quoteChar]).getLast? == some quoteChar) &&
      (v ++ [quoteChar]).dropLast.all
        (fun d => !(d == quoteChar) && !(d == backslash))) = true
    then some (v ++ [quoteChar]).dropLast else none) = some v
  rw [h1, h2, h3, h4]
  simp

theorem plainKey_colonFree {k : Str} (hk : plainKey k = true) :
    ∀ c ∈ k, (c != ':') = true := by
  intro c hc
  simp only [plainKey, Bool.and_eq_true, List.all_eq_true] at hk
  have hck := hk.2 c hc
  simp only [bne_iff_ne, ne_eq]
  intro hcolon
  subst hcolon
  simp at hck

theorem takeWhile_colon (k : Str) (r : Str)
    (hk : ∀ c ∈ k, (c != ':') = true) :
    (k ++ (':' :: r)).takeWhile (fun c => c != ':') = k := by
  induction k with
  | nil =>
    show (':' :: r).takeWhile (fun c => c != ':') = []
    rw [List.takeWhile_cons]
    rw [show ((':' : Char) != ':') = false from rfl]
    rfl
  | cons a t ih =>
    show (a :: (t ++ (':' :: r))).takeWhile (fun c => c != ':') = a :: t
    rw [List.takeWhile_cons, hk a (List.mem_cons_self a t)]
    rw [ih (fun c hc => hk c (List.mem_cons_of_mem a hc))]
    simp

theorem parseScalar_quoteLine (k v : Str) (hk : plainKey k = true)
    (hv : safeStr v) : parseScalarLine (quoteLine k v) = some (k, v) := by
  unfold parseScalarLine quoteLine
  have htw : (k ++ (':' :: ' ' :: quoteChar :: (v ++ [quoteChar]))).takeWhile
      (fun c => c != ':') = k :=
    takeWhile_colon k _ (plainKey_colonFree hk)
  simp only [htw]
  rw [if_pos hk,
    List.drop_left k (' ' :: quoteChar :: (v ++ [quoteChar]) |>.cons ':')]
  show (parseQuoted (quoteChar :: (v ++ [quoteChar]))).map (fun w => (k, w))
    = some (k, v)
  rw [parseQuoted_ok v hv]
  rfl

theorem parseScalar_listKey_none (k : Str) (hk : plainKey k = true) :
    parseScalarLine (k ++ [':']) = none := by
  unfold parseScalarLine
  have htw : (k ++ [':']).takeWhile (fun c => c != ':') = k :=
    takeWhile_colon k [] (plainKey_colonFree hk)
  simp only [htw]
  rw [if_pos hk, List.drop_left k [':']]
  rfl

theorem parseListKey_ok (k : Str) (hk : plainKey k = true) :
    parseListKeyLine (k ++ [':']) = some k := by
  unfold parseListKeyLine
  rw [List.getLast?_concat, List.dropLast_concat, hk]
  rfl

theorem parseScalar_itemLine (v : Str) :
    parseScalarLine (itemLine v) = none := by
  unfold parseScalarLine itemLine
  have hp : plainKey ((' ' :: ' ' :: '-' :: ' ' :: quoteChar ::
      (v ++ [quoteChar])).takeWhile (fun c => c != ':')) = false := by
    rw [List.takeWhile_cons]
    rw [show ((' ' : Char) != ':') = true from rfl]
    simp [plainKey]
  simp only [hp]
  rfl

theorem parseListKey_itemLine_none (v : Str) :
    parseListKeyLine (itemLine v) = none := by
  unfold parseListKeyLine itemLine
  have hl : (' ' :: ' ' :: '-' :: ' ' :: quoteChar ::
      (v ++ [quoteChar])).getLast? = some quoteChar := by
    rw [show (' ' :: ' ' :: '-' :: ' ' :: quoteChar :: (v ++ [quoteChar]))
        = ((' ' :: ' ' :: '-' :: ' ' :: quoteChar :: v) ++ [quoteChar]) from by
      simp]
    exact List.getLast?_concat _
  rw [hl]
  rw [show ((some quoteChar == some (':' : Char))) = false from by decide]
  rfl

theorem parseItem_ok (v : Str) (hv : safeStr v) :
    parseItemLine (itemLine v) = some v := by
  unfold parseItemLine itemLine
  rw [if_pos (show strPref (litS ("  - "))
    (' ' :: ' ' :: '-' :: ' ' :: quoteChar :: (v ++ [quoteChar])) = true
    from rfl)]
  show parseQuoted (quoteChar :: (v ++ [quoteChar])) = some v
  exact parseQuoted_ok v hv

theorem parseGo_cons (l : Str) (ls : List Str) (acc : List (Str × YVal))
    (inList : Bool) :
    parseGo (l :: ls) acc inList =
      (match parseScalarLine l with
       | some (k, v) => parseGo ls ((k, YVal.s v) :: acc) false
       | none =>
         match parseListKeyLine l with
         | some k => parseGo ls ((k, YVal.null) :: acc) true
         | none =>
           match parseItemLine l with
           | some v =>
             if inList then
               match pushItem acc v with
               | some acc2 => parseGo ls acc2 true
               | none => none
             else none
           | none => none) := rfl

theorem parseGo_scalar (k v : Str) (hk : plainKey k = true) (hv : safeStr v)
    (ls : List Str) (acc : List (Str × YVal)) (inList : Bool) :
    parseGo (quoteLine k v :: ls) acc inList
      = parseGo ls ((k, YVal.s v) :: acc) false := by
  rw [parseGo_cons, parseScalar_quoteLine k v hk hv]

theorem parseGo_listKey (k : Str) (hk : plainKey k = true)
    (ls : List Str) (acc : List (Str × YVal)) (inList : Bool) :
    parseGo ((k ++ [':']) :: ls) acc inList
      = parseGo ls ((k, YVal.null) :: acc) true := by
  rw [parseGo_cons, parseScalar_listKey_none k hk, parseListKey_ok k hk]

theorem parseGo_item (v : Str) (hv : safeStr v) (ls : List Str) (k : Str)
    (cur : List Str) (acc : List (Str × YVal)) :
    parseGo (itemLine v :: ls) ((k, YVal.list cur) :: acc) true
      = parseGo ls ((k, YVal.list (cur ++ [v])) :: acc) true := by
  rw [parseGo_cons, parseScalar_itemLine, parseListKey_itemLine_none,
    parseItem_ok v hv]
  rfl

theorem parseGo_item_null (v : Str) (hv : safeStr v) (ls : List Str)
    (k : Str) (acc : List (Str × YVal)) :
    parseGo (itemLine v :: ls) ((k, YVal.null) :: acc) true
      = parseGo ls ((k, YVal.list [v]) :: acc) true := by
  rw [parseGo_cons, parseScalar_itemLine, parseListKey_itemLine_none,
    parseItem_ok v hv]
  rfl

theorem parseGo_items (vs : List Str) :
    ∀ (_hs : ∀ v ∈ vs, safeStr v) (k : Str) (cur : List Str)
      (ls : List Str) (acc : List (Str × YVal)),
    parseGo (vs.map itemLine ++ ls) ((k, YVal.list cur) :: acc) true
      = parseGo ls ((k, YVal.list (cur ++ vs)) :: acc) true := by
  induction vs with
  | nil => intro _hs k cur ls acc; simp
  | cons v vs ih =>
    intro hs k cur ls acc
    show parseGo (itemLine v :: (vs.map itemLine ++ ls)) _ _ = _
    rw [parseGo_item v (hs v (by simp)) _ k cur acc,
      ih (fun x hx => hs x (by simp [hx])) k (cur ++ [v]) ls acc,
      show (cur ++ [v]) ++ vs = cur ++ (v :: vs) from by simp]

theorem parseGo_listBlock (kk : Str) (vs : List Str)
    (hk : plainKey kk = true) (hvs : ∀ v ∈ vs, safeStr v) (hne : vs ≠ [])
    (ls : List Str) (acc : List (Str × YVal)) (inList : Bool) :
    parseGo (listLines kk vs ++ ls) acc inList
      = parseGo ls ((kk, YVal.list vs) :: acc) true := by
  cases vs with
  | nil => exact absurd rfl hne
  | cons v vs =>
    show parseGo ((kk ++ [':']) :: ((v :: vs).map itemLine ++ ls)) acc inList
      = _
    rw [parseGo_listKey kk hk]
    show parseGo (itemLine v :: (vs.map itemLine ++ ls)) _ _ = _
    rw [parseGo_item_null v (hvs v (by simp)),
      parseGo_items vs (fun x hx => hvs x (by simp [hx])) kk [v] ls _]
    rfl

/-! ### Frontmatter round trip: text-level split lemmas -/

theorem splitNl_noNl (l : Str) (h : ∀ c ∈ l, c ≠ '\n') : splitNl l = [l] := by
  induction l with
  | nil => rfl
  | cons a t ih =>
    simp only [splitNl]
    rw [if_neg (by simpa using h a (List.mem_cons_self a t)),
      ih (fun c hc => h c (List.mem_cons_of_mem a hc))]

theorem splitNl_append (l0 : Str) (s : Str) (h : ∀ c ∈ l0, c ≠ '\n') :
    splitNl (l0 ++ ('\n' :: s)) = l0 :: splitNl s := by
  induction l0 with
  | nil =>
    show splitNl ('\n' :: s) = [] :: splitNl s
    simp [splitNl]
  | cons a t ih =>
    show splitNl (a :: (t ++ ('\n' :: s))) = (a :: t) :: splitNl s
    simp only [splitNl]
    rw [if_neg (by simpa using h a (List.mem_cons_self a t)),
      ih (fun c hc => h c (List.mem_cons_of_mem a hc))]

theorem joinNl_cons (l : Str) (ls : List Str) :
    joinNl (l :: ls) = l ++ ('\n' :: joinNl ls) := by
  simp [joinNl, List.append_assoc]

theorem joinNl_length_pos (l : Str) (ls : List Str) :
    1 ≤ (joinNl (l :: ls)).length := by
  rw [joinNl_cons]
  simp [List.length_append]
  omega

theorem strPref_cons (a b : Char) (p s : Str) :
    strPref (a :: p) (b :: s) = ((a == b) && strPref p s) := rfl

/-- No line of the frontmatter equals `---`, so `\n---\n` cannot begin at
the end of a line other than the last. -/
theorem dash_not_pref (l1 x : Str) (h1 : ∀ c ∈ l1, c ≠ '\n')
    (h2 : l1 ≠ litS ("---")) :
    strPref ((litS ("---")) ++ ['\n']) (l1 ++ ('\n' :: x)) = false := by
  match l1 with
  | [] =>
    show strPref ('-' :: '-' :: '-' :: '\n' :: []) ('\n' :: x) = false
    rw [strPref_cons, show (('-' : Char) == '\n') = false from rfl,
      Bool.false_and]
  | [a] =>
    show strPref ('-' :: '-' :: '-' :: '\n' :: []) (a :: '\n' :: x) = false
    rw [strPref_cons, strPref_cons,
      show (('-' : Char) == '\n') = false from rfl]
    simp
  | [a, b] =>
    show strPref ('-' :: '-' :: '-' :: '\n' :: []) (a :: b :: '\n' :: x)
      = false
    rw [strPref_cons, strPref_cons, strPref_cons,
      show (('-' : Char) == '\n') = false from rfl]
    simp
  | [a, b, c] =>
    show strPref ('-' :: '-' :: '-' :: '\n' :: []) (a :: b :: c :: '\n' :: x)
      = false
    rw [strPref_cons, strPref_cons, strPref_cons, strPref_cons]
    by_cases habc : a = '-' ∧ b = '-' ∧ c = '-'
    · exact absurd (by rw [habc.1, habc.2.1, habc.2.2]; rfl) h2
    · rcases not_and_or.mp habc with h | hbc
      · rw [show (('-' : Char) == a) = false from
          beq_eq_false_iff_ne.mpr (fun hh => h hh.symm), Bool.false_and]
      · rcases not_and_or.mp hbc with h | h
        · rw [show (('-' : Char) == b) = false from
            beq_eq_false_iff_ne.mpr (fun hh => h hh.symm)]
          simp
        · rw [show (('-' : Char) == c) = false from
            beq_eq_false_iff_ne.mpr (fun hh => h hh.symm)]
          simp
  | a :: b :: c :: d :: rest =>
    have hd : d ≠ '\n' := h1 d (by simp)
    show strPref ('-' :: '-' :: '-' :: '\n' :: [])
      (a :: b :: c :: d :: (rest ++ ('\n' :: x))) = false
    rw [strPref_cons, strPref_cons, strPref_cons, strPref_cons,
      show (('\n' : Char) == d) = false from
        beq_eq_false_iff_ne.mpr (fun h => hd h.symm)]
    simp

/-- Scanning a newline-free line: the pattern `\n---\n` can only begin at
the line's terminating newline, where it matches iff the remainder starts
with `---\n`. -/
theorem findSub_line (l0 s : Str) (h : ∀ c ∈ l0, c ≠ '\n') :
    findSubIdx ('\n' :: ((litS ("---")) ++ ['\n'])) (l0 ++ ('\n' :: s)) =
      (if strPref ((litS ("---")) ++ ['\n']) s then some l0.length
       else (findSubIdx ('\n' :: ((litS ("---")) ++ ['\n'])) s).map
         (· + (l0.length + 1))) := by
  induction l0 with
  | nil =>
    show findSubIdx ('\n' :: ((litS ("---")) ++ ['\n'])) ('\n' :: s) = _
    rw [findSubIdx_cons, strPref_cons, show (('\n' : Char) == '\n') = true
      from rfl, Bool.true_and]
    by_cases hp : strPref ((litS ("---")) ++ ['\n']) s = true
    · rw [if_pos hp, if_pos hp]
      rfl
    · rw [if_neg (by simpa using hp), if_neg (by simpa using hp)]
      simp
  | cons a t ih =>
    have ha : a ≠ '\n' := h a (List.mem_cons_self a t)
    show findSubIdx ('\n' :: ((litS ("---")) ++ ['\n']))
      (a :: (t ++ ('\n' :: s))) = _
    rw [findSubIdx_cons, strPref_cons,
      show (('\n' : Char) == a) = false from
        beq_eq_false_iff_ne.mpr (fun hc => ha hc.symm),
      Bool.false_and]
    rw [if_neg (by simp), ih (fun c hc => h c (List.mem_cons_of_mem a hc))]
    by_cases hp : strPref ((litS ("---")) ++ ['\n']) s = true
    · rw [if_pos hp, if_pos hp]
      rfl
    · rw [if_neg (by simpa using hp), if_neg (by simpa using hp)]
      cases hfind : findSubIdx ('\n' :: ((litS ("---")) ++ ['\n'])) s <;>
        simp [hfind]
      omega

/-- The first occurrence of `\n---\n` in the serialized frontmatter is at
the last line's terminating newline. -/
theorem findSubIdx_joinNl :
    ∀ (lines : List Str) (tail : Str), lines ≠ [] →
    (∀ l ∈ lines, (∀ c ∈ l, c ≠ '\n') ∧ l ≠ litS ("---")) →
    strPref ((litS ("---")) ++ ['\n']) tail = true →
    findSubIdx ('\n' :: ((litS ("---")) ++ ['\n'])) (joinNl lines ++ tail)
      = some ((joinNl lines).length - 1) := by
  intro lines
  induction lines with
  | nil => intro tail h; exact absurd rfl h
  | cons l0 rest ih =>
    intro tail _ hok htail
    cases rest with
    | nil =>
      rw [joinNl_cons]
      show findSubIdx ('\n' :: ((litS ("---")) ++ ['\n']))
        ((l0 ++ ('\n' :: joinNl [])) ++ tail) = _
      rw [show (l0 ++ ('\n' :: joinNl [])) ++ tail = l0 ++ ('\n' :: tail)
        from by simp [joinNl]]
      rw [findSub_line l0 tail (hok l0 (List.mem_cons_self l0 [])).1,
        if_pos htail]
      have hlen1 : (l0 ++ ('\n' :: joinNl [])).length - 1 = l0.length := by
        simp [joinNl]
      rw [hlen1]
    | cons l1 rest2 =>
      rw [joinNl_cons]
      have hassoc : (l0 ++ ('\n' :: joinNl (l1 :: rest2))) ++ tail
          = l0 ++ ('\n' :: (joinNl (l1 :: rest2) ++ tail)) := by
        simp [List.append_assoc]
      rw [hassoc,
        findSub_line l0 _ (hok l0 (List.mem_cons_self l0 _)).1]
      have hnp : strPref ((litS ("---")) ++ ['\n'])
          (joinNl (l1 :: rest2) ++ tail) = false := by
        rw [joinNl_cons]
        rw [show (l1 ++ ('\n' :: joinNl rest2)) ++ tail
          = l1 ++ ('\n' :: (joinNl rest2 ++ tail)) from by
            simp [List.append_assoc]]
        exact dash_not_pref l1 _ (hok l1 (by simp)).1 (hok l1 (by simp)).2
      rw [if_neg (by simp [hnp])]
      rw [ih tail (by simp) (fun l hl => hok l (List.mem_cons_of_mem l0 hl))
        htail]
      have hpos : 1 ≤ (joinNl (l1 :: rest2)).length :=
        joinNl_length_pos l1 rest2
      show some ((joinNl (l1 :: rest2)).length - 1 + (l0.length + 1))
        = some ((l0 ++ ('\n' :: joinNl (l1 :: rest2))).length - 1)
      simp [List.length_append]
      omega

/-- Taking everything but the final newline of the serialized
frontmatter and splitting on newlines recovers the lines. -/
theorem splitNl_take_joinNl :
    ∀ (lines : List Str), lines ≠ [] →
    (∀ l ∈ lines, ∀ c ∈ l, c ≠ '\n') →
    splitNl ((joinNl lines).take ((joinNl lines).length - 1)) = lines := by
  intro lines
  induction lines with
  | nil => intro h; exact absurd rfl h
  | cons l0 rest ih =>
    intro _ hno
    cases rest with
    | nil =>
      rw [joinNl_cons]
      have hlen : (l0 ++ ('\n' :: joinNl [])).length - 1 = l0.length := by
        simp [joinNl]
      rw [hlen,
        show l0 ++ ('\n' :: joinNl []) = l0 ++ ['\n'] from by simp [joinNl],
        List.take_left l0 ['\n']]
      exact splitNl_noNl l0 (hno l0 (List.mem_cons_self l0 _))
    | cons l1 rest2 =>
      rw [joinNl_cons]
      have hpos : 1 ≤ (joinNl (l1 :: rest2)).length :=
        joinNl_length_pos l1 rest2
      have hlen : (l0 ++ ('\n' :: joinNl (l1 :: rest2))).length - 1
          = l0.length + (1 + ((joinNl (l1 :: rest2)).length - 1)) := by
        simp [List.length_append]
        omega
      rw [hlen, List.take_append]
      rw [show (1 + ((joinNl (l1 :: rest2)).length - 1))
        = ((joinNl (l1 :: rest2)).length - 1) + 1 from by omega]
      rw [List.take_succ_cons]
      rw [splitNl_append l0 _ (hno l0 (List.mem_cons_self l0 _))]
      rw [ih (by simp) (fun l hl => hno l (List.mem_cons_of_mem l0 hl))]

/-! ### Frontmatter round trip: the serialized lines are well formed -/

theorem quoteLine_lineOK (k v : Str) (hk : ∀ c ∈ k, c ≠ '\n')
    (hv : safeStr v) :
    (∀ c ∈ quoteLine k v, c ≠ '\n') ∧ quoteLine k v ≠ litS ("---") := by
  constructor
  · intro c hc
    rcases List.mem_append.mp hc with hc | hc
    · exact hk c hc
    · rcases List.mem_cons.mp hc with rfl | hc
      · decide
      rcases List.mem_cons.mp hc with rfl | hc
      · decide
      rcases List.mem_cons.mp hc with rfl | hc
      · decide
      rcases List.mem_append.mp hc with hc | hc
      · exact (hv c hc).2.2
      · rcases List.mem_singleton.mp hc with rfl
        decide
  · intro heq
    have hc : (':' : Char) ∈ quoteLine k v :=
      List.mem_append.mpr (Or.inr (List.mem_cons_self _ _))
    rw [heq] at hc
    exact absurd hc (by decide)

theorem listKey_lineOK (k : Str) (hk : ∀ c ∈ k, c ≠ '\n') :
    (∀ c ∈ k ++ [':'], c ≠ '\n') ∧ k ++ [':'] ≠ litS ("---") := by
  constructor
  · intro c hc
    rcases List.mem_append.mp hc with hc | hc
    · exact hk c hc
    · rcases List.mem_singleton.mp hc with rfl
      decide
  · intro heq
    have hc : (':' : Char) ∈ k ++ [':'] :=
      List.mem_append.mpr (Or.inr (List.mem_singleton.mpr rfl))
    rw [heq] at hc
    exact absurd hc (by decide)

theorem itemLine_lineOK (v : Str) (hv : safeStr v) :
    (∀ c ∈ itemLine v, c ≠ '\n') ∧ itemLine v ≠ litS ("---") := by
  constructor
  · intro c hc
    rcases List.mem_cons.mp hc with rfl | hc
    · decide
    rcases List.mem_cons.mp hc with rfl | hc
    · decide
    rcases List.mem_cons.mp hc with rfl | hc
    · decide
    rcases List.mem_cons.mp hc with rfl | hc
    · decide
    rcases List.mem_cons.mp hc with rfl | hc
    · decide
    rcases List.mem_append.mp hc with hc | hc
    · exact (hv c hc).2.2
    · rcases List.mem_singleton.mp hc with rfl
      decide
  · intro heq
    have hc : quoteChar ∈ itemLine v :=
      List.mem_cons_of_mem _ (List.mem_cons_of_mem _ (List.mem_cons_of_mem _
        (List.mem_cons_of_mem _ (List.mem_cons_self _ _))))
    rw [heq] at hc
    exact absurd hc (by decide)

theorem fmLines_ok (r : FMRecord) (hsafe : r.Safe) :
    ∀ l ∈ fmLines r, (∀ c ∈ l, c ≠ '\n') ∧ l ≠ litS ("---") := by
  obtain ⟨hs1, hs2, hs3, hs4, hs5, hs6, hs7, hs8⟩ := hsafe
  refine List.forall_mem_append.mpr
    ⟨?_, List.forall_mem_append.mpr ⟨?_, ?_⟩⟩
  · refine List.forall_mem_cons.mpr ⟨quoteLine_lineOK _ _ (by decide) hs1, ?_⟩
    refine List.forall_mem_cons.mpr ⟨quoteLine_lineOK _ _ (by decide) hs2, ?_⟩
    refine List.forall_mem_cons.mpr ⟨quoteLine_lineOK _ _ (by decide) hs3, ?_⟩
    refine List.forall_mem_cons.mpr ⟨quoteLine_lineOK _ _ (by decide) hs4, ?_⟩
    refine List.forall_mem_cons.mpr ⟨quoteLine_lineOK _ _ (by decide) hs5, ?_⟩
    refine List.forall_mem_cons.mpr ⟨quoteLine_lineOK _ _ (by decide) hs6, ?_⟩
    intro l hl
    exact absurd hl (List.not_mem_nil l)
  · refine List.forall_mem_cons.mpr ⟨listKey_lineOK _ (by decide), ?_⟩
    intro l hl
    obtain ⟨v, hvmem, rfl⟩ := List.mem_map.mp hl
    exact itemLine_lineOK v (hs7 v hvmem)
  · refine List.forall_mem_cons.mpr ⟨listKey_lineOK _ (by decide), ?_⟩
    intro l hl
    obtain ⟨v, hvmem, rfl⟩ := List.mem_map.mp hl
    exact itemLine_lineOK v (hs8 v hvmem)

theorem parseGo_fmLines (r : FMRecord) (hsafe : r.Safe)
    (hobj : r.learning_objectives ≠ []) (htop : r.key_topics ≠ []) :
    parseGo (fmLines r) [] false
      = some [(litS ("title"), YVal.s r.title),
              (litS ("unit"), YVal.s r.unit),
              (litS ("unit_number"), YVal.s r.unit_number),
              (litS ("subunit_number"), YVal.s r.subunit_number),
              (litS ("course"), YVal.s r.course),
              (litS ("difficulty_level"), YVal.s r.difficulty_level),
              (litS ("learning_objectives"), YVal.list r.learning_objectives),
              (litS ("key_topics"), YVal.list r.key_topics)] := by
  obtain ⟨hs1, hs2, hs3, hs4, hs5, hs6, hs7, hs8⟩ := hsafe
  show parseGo
    (quoteLine (litS ("title")) r.title ::
     quoteLine (litS ("unit")) r.unit ::
     quoteLine (litS ("unit_number")) r.unit_number ::
     quoteLine (litS ("subunit_number")) r.subunit_number ::
     quoteLine (litS ("course")) r.course ::
     quoteLine (litS ("difficulty_level")) r.difficulty_level ::
     (listLines (litS ("learning_objectives")) r.learning_objectives ++
      listLines (litS ("key_topics")) r.key_topics)) [] false = _
  rw [parseGo_scalar _ _ (by decide) hs1,
    parseGo_scalar _ _ (by decide) hs2,
    parseGo_scalar _ _ (by decide) hs3,
    parseGo_scalar _ _ (by decide) hs4,
    parseGo_scalar _ _ (by decide) hs5,
    parseGo_scalar _ _ (by decide) hs6,
    parseGo_listBlock _ _ (by decide) hs7 hobj,
    show listLines (litS ("key_topics")) r.key_topics
      = listLines (litS ("key_topics")) r.key_topics ++ []
      from (List.append_nil _).symm,
    parseGo_listBlock _ _ (by decide) hs8 htop]
  rfl

/-- Claim C6, amended.  For every subunit record whose title, scalar
fields, learning objectives and key topics contain no double quote, no
backslash and no newline, and whose two lists are nonempty, writing the
file with `save_markdown` and parsing it with
`parse_markdown_frontmatter` recovers the full frontmatter mapping —
title, learning objectives and key topics exactly, list order preserved —
and the body with the separating blank line attached.  (The serializer
does not escape quotes or backslashes, and a key with an empty list
parses back as YAML null rather than an empty list, hence the
restrictions.) -/
theorem claim6_theorem (r : FMRecord) (content : Str) (hsafe : r.Safe)
    (hobj : r.learning_objectives ≠ []) (htop : r.key_topics ≠ []) :
    parse_markdown_frontmatter (save_markdown_text r content)
      = ([(litS ("title"), YVal.s r.title),
          (litS ("unit"), YVal.s r.unit),
          (litS ("unit_number"), YVal.s r.unit_number),
          (litS ("subunit_number"), YVal.s r.subunit_number),
          (litS ("course"), YVal.s r.course),
          (litS ("difficulty_level"), YVal.s r.difficulty_level),
          (litS ("learning_objectives"), YVal.list r.learning_objectives),
          (litS ("key_topics"), YVal.list r.key_topics)],
        '\n' :: content) := by
  have hlinesOK := fmLines_ok r hsafe
  have hLne : fmLines r ≠ [] := by
    intro h
    have := congrArg List.length h
    simp [fmLines, listLines] at this
  have hJpos : 1 ≤ (joinNl (fmLines r)).length :=
    joinNl_length_pos (quoteLine (litS ("title")) r.title) _
  unfold parse_markdown_frontmatter save_markdown_text
  rw [if_pos (strPref_append_self ((litS ("---")) ++ ['\n']) _)]
  rw [show (((litS ("---")) ++ ['\n']) ++
      (joinNl (fmLines r) ++ (((litS ("---")) ++ ['\n']) ++ ('\n' :: content)))).drop 4
    = joinNl (fmLines r) ++ (((litS ("---")) ++ ['\n']) ++ ('\n' :: content))
    from List.drop_left ((litS ("---")) ++ ['\n'])
      (joinNl (fmLines r) ++ (((litS ("---")) ++ ['\n']) ++ ('\n' :: content)))]
  rw [findSubIdx_joinNl (fmLines r) _ hLne hlinesOK
    (strPref_append_self _ _)]
  show (match parseGo (splitNl ((joinNl (fmLines r) ++
      (((litS ("---")) ++ ['\n']) ++ ('\n' :: content))).take
        ((joinNl (fmLines r)).length - 1))) [] false with
    | some fm => (fm, (joinNl (fmLines r) ++
        (((litS ("---")) ++ ['\n']) ++ ('\n' :: content))).drop
          ((joinNl (fmLines r)).length - 1 + 5))
    | none => ([], (joinNl (fmLines r) ++
        (((litS ("---")) ++ ['\n']) ++ ('\n' :: content))).drop
          ((joinNl (fmLines r)).length - 1 + 5))) = _
  rw [List.take_append_of_le_length
    (by omega : (joinNl (fmLines r)).length - 1 ≤ (joinNl (fmLines r)).length)]
  rw [splitNl_take_joinNl (fmLines r) hLne (fun l hl => (hlinesOK l hl).1)]
  rw [parseGo_fmLines r hsafe hobj htop]
  rw [show (joinNl (fmLines r)).length - 1 + 5
    = (joinNl (fmLines r)).length + 4 from by omega]
  rw [List.drop_append 4]
  rw [show (((litS ("---")) ++ ['\n']) ++ ('\n' :: content)).drop 4
    = '\n' :: content from
    List.drop_left ((litS ("---")) ++ ['\n']) ('\n' :: content)]

/-- The record of `claim6_counterexample`: its title contains a double
quote, which `save_markdown` writes unescaped. -/
def badRecord : FMRecord where
  title := ['a', quoteChar, 'b']
  unit := litS ("Unit One")
  unit_number := litS ("1")
  subunit_number := litS ("1.1")
  course := litS ("C")
  difficulty_level := litS ("easy")
  learning_objectives := [litS ("obj")]
  key_topics := [litS ("top")]

set_option maxRecDepth 4096 in
/-- Claim C6 as stated is false for arbitrary strings: a title containing
a double quote (here `a"b`) yields the line `title: "a"b"`, ill-formed
YAML, so the parse recovers an empty frontmatter and in particular no
title at all. -/
theorem claim6_counterexample :
    (parse_markdown_frontmatter (save_markdown_text badRecord (litS ("body")))).1
      = [] ∧
    fmLookup
      (parse_markdown_frontmatter (save_markdown_text badRecord (litS ("body")))).1
      (litS ("title")) = none := by
  constructor <;> decide

def goodRecord : FMRecord where
  title := litS ("Introduction")
  unit := litS ("Unit One")
  unit_number := litS ("1")
  subunit_number := litS ("1.1")
  course := litS ("My Course")
  difficulty_level := litS ("easy")
  learning_objectives := [litS ("O1"), litS ("O2")]
  key_topics := [litS ("T1")]

theorem claim6_witness :
    parse_markdown_frontmatter (save_markdown_text goodRecord (litS ("B")))
      = ([(litS ("title"), YVal.s goodRecord.title),
          (litS ("unit"), YVal.s goodRecord.unit),
          (litS ("unit_number"), YVal.s goodRecord.unit_number),
          (litS ("subunit_number"), YVal.s goodRecord.subunit_number),
          (litS ("course"), YVal.s goodRecord.course),
          (litS ("difficulty_level"), YVal.s goodRecord.difficulty_level),
          (litS ("learning_objectives"), YVal.list goodRecord.learning_objectives),
          (litS ("key_topics"), YVal.list goodRecord.key_topics)],
        '\n' :: litS ("B")) :=
  claim6_theorem goodRecord (litS ("B")) (by decide) (by decide) (by decide)

end CourseGPT
